import Mathlib

/-!
# Verification of the rogue stream Buffer and StreamWriter

A shallow embedding of `src/rogue/interfaces/stream/Buffer.cpp` and
`src/rogue/utilities/fileio/StreamWriter.cpp`.  The stream Frame, the stream
Master and the packetizer Controller, whose code is not among the sources,
are modelled from the specification; these definitions say so.

* `uint32_t` values are natural numbers; every arithmetic operation of the
  source that can wrap is written with an explicit reduction modulo `2^32`
  (`add32`, `sub32`).
* A pointer is modelled by the memory it points to: a function from byte
  offsets (relative to the pointer) to byte values.  The null pointer is
  `none`.
* A method that can throw returns `Except`; the error carries the exception
  and the object as it is when the exception is thrown.
* The operating system is part of the writer state: the contents of the
  files, and the outcomes of the system calls still to come, so that every
  `::open`, `::write` and `malloc` can fail.
* Hypotheses of the form `x < U32` say that `x` is a `uint32_t`.
-/

set_option autoImplicit false

namespace Rogue

/-! ## Machine arithmetic and memory -/

/-- Number of values of a `uint32_t`. -/
def U32 : Nat := 4294967296

/-- Addition of two `uint32_t` values. -/
def add32 (a b : Nat) : Nat := (a + b) % U32

/-- Subtraction of two `uint32_t` values (wraps around below zero). -/
def sub32 (a b : Nat) : Nat := (a + U32 - b) % U32

/-- Memory seen through a pointer: byte offset from the pointer to byte value. -/
abbrev Mem := Nat → Nat

/-- The call `memcpy(dst + dOff, src + sOff, n)`: the `n` bytes of `src` starting at `sOff`
replace the bytes of `dst` starting at `dOff`. -/
def memcpy (dst : Mem) (dOff : Nat) (src : Mem) (sOff n : Nat) : Mem :=
  fun j => if dOff ≤ j ∧ j < dOff + n then src (sOff + (j - dOff)) else dst j

/-! ## Buffer.cpp -/

/-- The data members of `rogue::interfaces::stream::Buffer`.  `source_` is a handle of the
owning Slave; `data_` is the raw block (`none` is `NULL`). -/
structure Buffer where
  source_ : Nat
  data_ : Option Mem
  meta_ : Nat
  rawSize_ : Nat
  headRoom_ : Nat
  count_ : Nat
  error_ : Nat
  flags_ : Nat

namespace Buffer

/-- The constructor `Buffer::Buffer(source, data, meta, rawSize)`.  The constructor does not
assign `flags_`, so its initial value is indeterminate: it is the extra argument `flags0`. -/
def new (source : Nat) (data : Option Mem) (meta rawSize flags0 : Nat) : Buffer :=
  { source_ := source, data_ := data, meta_ := meta, rawSize_ := rawSize,
    headRoom_ := 0, count_ := 0, error_ := 0, flags_ := flags0 }

/-- `Buffer::getRawData`. -/
def getRawData (b : Buffer) : Option Mem := b.data_

/-- `Buffer::getPayloadData`: `NULL` when `data_` is, else `data_ + headRoom_`. -/
def getPayloadData (b : Buffer) : Option Mem :=
  match b.data_ with
  | none => none
  | some d => some (fun j => d (b.headRoom_ + j))

/-- `Buffer::getMeta`. -/
def getMeta (b : Buffer) : Nat := b.meta_

/-- `Buffer::setMeta`. -/
def setMeta (b : Buffer) (m : Nat) : Buffer := { b with meta_ := m }

/-- `Buffer::getRawSize`. -/
def getRawSize (b : Buffer) : Nat := b.rawSize_

/-- `Buffer::getCount`: payload plus head room. -/
def getCount (b : Buffer) : Nat := b.count_

/-- `Buffer::getHeadRoom`. -/
def getHeadRoom (b : Buffer) : Nat := b.headRoom_

/-- `Buffer::getAvailable`. -/
def getAvailable (b : Buffer) : Nat :=
  let temp := sub32 b.rawSize_ b.count_
  if temp < b.headRoom_ then 0 else sub32 temp b.headRoom_

/-- `Buffer::getPayload`. -/
def getPayload (b : Buffer) : Nat :=
  if b.count_ < b.headRoom_ then 0 else sub32 b.count_ b.headRoom_

/-- `Buffer::getFlags`: returns `flags_`. -/
def getFlags (b : Buffer) : Nat := b.flags_

/-- `Buffer::setFlags`: the source assigns `error_`. -/
def setFlags (b : Buffer) (flags : Nat) : Buffer := { b with error_ := flags }

/-- `Buffer::getError`. -/
def getError (b : Buffer) : Nat := b.error_

/-- `Buffer::setError`. -/
def setError (b : Buffer) (error : Nat) : Buffer := { b with error_ := error }

/-- `Buffer::setSize`. -/
def setSize (b : Buffer) (size : Nat) : Buffer := { b with count_ := size }

/-- `Buffer::setHeadRoom`. -/
def setHeadRoom (b : Buffer) (offset : Nat) : Buffer := { b with headRoom_ := offset }

/-- `Buffer::read(p, offset, count)`: the returned count and the destination memory `p`
after the call.  The Buffer itself is not modified. -/
def read (b : Buffer) (p : Mem) (offset count : Nat) : Nat × Mem :=
  match b.data_ with
  | none => (0, p)
  | some d =>
    if b.count_ < b.headRoom_ then (0, p)
    else if offset ≥ sub32 b.count_ b.headRoom_ then (0, p)
    else
      let rcnt :=
        if count > sub32 (sub32 b.count_ b.headRoom_) offset
        then sub32 (sub32 b.count_ b.headRoom_) offset
        else count
      (rcnt, memcpy p 0 d (b.headRoom_ + offset) rcnt)

/-- `Buffer::write(p, offset, count)`: the returned count and the Buffer after the call. -/
def write (b : Buffer) (p : Mem) (offset count : Nat) : Nat × Buffer :=
  match b.data_ with
  | none => (0, b)
  | some d =>
    if offset ≥ sub32 b.rawSize_ b.headRoom_ then (0, b)
    else
      let wcnt :=
        if count > sub32 (sub32 b.rawSize_ b.headRoom_) offset
        then sub32 (sub32 b.rawSize_ b.headRoom_) offset
        else count
      (wcnt, { b with
                count_ := add32 (add32 offset b.headRoom_) wcnt,
                data_ := some (memcpy d (b.headRoom_ + offset) p 0 wcnt) })

/-- The invariant of the data model: used length at most the raw capacity, head room at most
the used length. -/
def Inv (b : Buffer) : Prop := b.count_ ≤ b.rawSize_ ∧ b.headRoom_ ≤ b.count_

/-- A Buffer of raw size 10 with a zeroed block, after `setHeadRoom(2)` and a write of 3 bytes
at offset 0. -/
def sampleWritten : Buffer :=
  (write (setHeadRoom (new 0 (some (fun _ => 0)) 0 10 0) 2) (fun _ => 7) 0 3).2

/-- A Buffer of raw size 4 whose data pointer is `NULL`. -/
def sampleNull : Buffer := new 0 none 0 4 0

/-- A Buffer of raw size 8 with head room 2 and 3 payload bytes; the block holds the byte
`i + 20` at raw position `i`. -/
def sampleFilled : Buffer :=
  setSize (setHeadRoom (new 0 (some (fun i => i + 20)) 0 8 0) 2) 5

/-- An empty Buffer of raw size 8 with head room 2 and a zeroed block. -/
def sampleEmpty : Buffer := setHeadRoom (new 0 (some (fun _ => 0)) 0 8 0) 2

end Buffer

/-! ## StreamWriter.cpp -/

/-- The exception classes thrown by the StreamWriter. -/
inductive Exn where
  | OpenException
  | GeneralException
  | AllocationException
  deriving DecidableEq, Repr

/-- The operating system as the StreamWriter sees it: the contents of the files by name
(`none`: the file does not exist), and the outcomes of the system and library calls still to
come (`true`: the call succeeds; when the list is used up every call succeeds). -/
structure Os where
  files : String → Option (List Nat)
  script : List Bool

namespace Os

/-- Contents of the file `name`; a file that does not exist has no bytes. -/
def content (os : Os) (name : String) : List Nat := (os.files name).getD []

/-- Outcome of the next call, and the outcomes left after it. -/
def next (os : Os) : Bool × Os :=
  match os.script with
  | [] => (true, os)
  | r :: rs => (r, { os with script := rs })

/-- The call `::open(name, O_RDWR|O_CREAT|O_APPEND, ...)`: on success the file exists (it is
created empty when it did not) and the descriptor, which stands for the file it refers to, is
returned; on failure the result is negative (`none`). -/
def openAppend (os : Os) (name : String) : Option String × Os :=
  let r := os.next
  if r.1 then
    (some name,
      { r.2 with files := fun n => if n = name then some (os.content name) else os.files n })
  else (none, r.2)

/-- The call `::write(fd, data, size)` on a descriptor opened with `O_APPEND`: on success all
the bytes are appended to the file and `true` is returned (the call returned `size`); it fails
on an invalid descriptor. -/
def writeAppend (os : Os) (fd : Option String) (data : List Nat) : Bool × Os :=
  let r := os.next
  match fd with
  | none => (false, r.2)
  | some name =>
    if r.1 then
      (true,
        { r.2 with
          files := fun n => if n = name then some (os.content name ++ data) else os.files n })
    else (false, r.2)

/-- The call `malloc(size)`: `true` when a block was returned. -/
def malloc (os : Os) : Bool × Os := os.next

end Os

/-- Modelled from the spec: the stream Frame (`Frame.h`, `Frame.cpp` and its read iterator are
not among the sources).  The spec describes it as an ordered sequence of Buffers with a
frame-level flag word, whose total payload size is the sum of the payloads of its Buffers, read
through a cursor that walks from Buffer to Buffer.  It is represented by its flag word and the
payload bytes of each of its Buffers, in order. -/
structure Frame where
  flags : Nat
  buffers : List (List Nat)

namespace Frame

/-- All payload bytes of the frame, in order. -/
def bytes (f : Frame) : List Nat := f.buffers.flatten

/-- Modelled from the spec: `Frame::getPayload`, the total payload size, a `uint32_t`. -/
def getPayload (f : Frame) : Nat := f.bytes.length % U32

/-- Modelled from the spec: `Frame::getFlags`, the frame-level flag word, a `uint32_t`. -/
def getFlags (f : Frame) : Nat := f.flags % U32

/-- Modelled from the spec: the pieces visited by `startRead(0, size)` followed by `nextRead`
until it returns false: the cursor walks from Buffer to Buffer and stops after `size` bytes.
There is always a first piece (it is empty when there is nothing to read). -/
def readPieces : List (List Nat) → Nat → List (List Nat)
  | [], _ => [[]]
  | c :: cs, size =>
    if size ≤ c.length then [c.take size] else c :: readPieces cs (size - c.length)

end Frame

/-- The four bytes of a `uint32_t` in memory, least significant byte first (the layout on the
little-endian hosts the writer runs on). -/
def le32 (v : Nat) : List Nat :=
  [v % 256, v / 256 % 256, v / 65536 % 256, v / 16777216 % 256]

/-- A byte sequence seen through a pointer to its first byte. -/
def listMem (l : List Nat) : Mem := fun i => l.getD i 0

/-- The data members of `rogue::utilities::fileio::StreamWriter`, and the operating system it
acts on.  `fd_` is the open descriptor (`none` is `-1`); `buffer_` is the block allocated by
`setBufferSize`. -/
structure StreamWriter where
  baseName_ : String
  fd_ : Option String
  fdIdx_ : Nat
  sizeLimit_ : Nat
  buffSize_ : Nat
  currSize_ : Nat
  totSize_ : Nat
  buffer_ : Mem
  frameCount_ : Nat
  currBuffer_ : Nat
  os : Os

/-- Result of a method that can throw: the writer after a normal return, or the exception
together with the writer as it is when the exception is thrown. -/
abbrev Res := Except (Exn × StreamWriter) StreamWriter

namespace StreamWriter

/-- The constructor `StreamWriter::StreamWriter()`.  It does not assign `fdIdx_`, whose initial
value is the argument `fdIdx0`. -/
def new (os : Os) (fdIdx0 : Nat) : StreamWriter :=
  { baseName_ := "", fd_ := none, fdIdx_ := fdIdx0, sizeLimit_ := 0, buffSize_ := 0,
    currSize_ := 0, totSize_ := 0, buffer_ := fun _ => 0, frameCount_ := 0, currBuffer_ := 0,
    os := os }

/-- The first `currBuffer_` bytes of `buffer_`: the bytes waiting in the buffer. -/
def pending (s : StreamWriter) : List Nat := (List.range s.currBuffer_).map s.buffer_

/-- Contents of the file the open descriptor refers to. -/
def fileBytes (s : StreamWriter) : List Nat :=
  match s.fd_ with
  | none => []
  | some name => s.os.content name

/-- Bytes already written to the open file followed by the bytes waiting in the buffer. -/
def stream (s : StreamWriter) : List Nat := s.fileBytes ++ s.pending

/-- `StreamWriter::open`. -/
def «open» (s : StreamWriter) (file : String) : Res :=
  let s1 := { s with baseName_ := file, fdIdx_ := 1 }
  let name := if s1.sizeLimit_ > 0 then file ++ ".1" else file
  let r := s1.os.openAppend name
  let s2 := { s1 with fd_ := r.1, os := r.2 }
  match r.1 with
  | none => .error (Exn.OpenException, s2)
  | some _ => .ok { s2 with totSize_ := 0, currSize_ := 0, frameCount_ := 0, currBuffer_ := 0 }

/-- `StreamWriter::flush`. -/
def flush (s : StreamWriter) : Res :=
  if s.currBuffer_ > 0 then
    let r := s.os.writeAppend s.fd_ s.pending
    let s1 := { s with os := r.2 }
    if r.1 then
      .ok { s1 with
            currSize_ := add32 s1.currSize_ s1.currBuffer_,
            totSize_ := add32 s1.totSize_ s1.currBuffer_,
            currBuffer_ := 0 }
    else .error (Exn.GeneralException, s1)
  else .ok s

/-- `StreamWriter::close`. -/
def close (s : StreamWriter) : Res := do
  let s1 ← flush s
  pure { s1 with fd_ := none }

/-- `StreamWriter::setBufferSize`. -/
def setBufferSize (s : StreamWriter) (size : Nat) : Res :=
  if size = s.buffSize_ then .ok s
  else do
    let s1 ← flush s
    let s2 := { s1 with buffSize_ := 0 }
    if size = 0 then pure s2
    else
      let r := s2.os.malloc
      let s3 := { s2 with os := r.2 }
      if r.1 then pure { s3 with buffer_ := fun _ => 0, buffSize_ := size }
      else throw (Exn.AllocationException, s3)

/-- `StreamWriter::setMaxSize`. -/
def setMaxSize (s : StreamWriter) (size : Nat) : StreamWriter := { s with sizeLimit_ := size }

/-- `StreamWriter::getSize`. -/
def getSize (s : StreamWriter) : Nat := add32 s.totSize_ s.currBuffer_

/-- `StreamWriter::getFrameCount`. -/
def getFrameCount (s : StreamWriter) : Nat := s.frameCount_

/-- The second half of `StreamWriter::intWrite`, after the flush: the raw write of data larger
than the buffer, or the copy into the buffer. -/
def intWriteStore (s1 : StreamWriter) (data : List Nat) : Res :=
  let size := data.length
  if size > s1.buffSize_ then
    let r := s1.os.writeAppend s1.fd_ data
    let s2 := { s1 with os := r.2 }
    if r.1 then
      .ok { s2 with
            currSize_ := add32 s2.currSize_ size,
            totSize_ := add32 s2.totSize_ size }
    else .error (Exn.GeneralException, s2)
  else if s1.buffSize_ > 0 ∧ size > 0 then
    .ok { s1 with
          buffer_ := memcpy s1.buffer_ s1.currBuffer_ (listMem data) 0 size,
          currBuffer_ := add32 s1.currBuffer_ size }
  else .ok s1

/-- `StreamWriter::intWrite(data, size)`; `data` is the list of the `size` bytes pointed to. -/
def intWrite (s : StreamWriter) (data : List Nat) : Res :=
  let size := data.length
  if s.fd_ = none then .ok s
  else if add32 size s.currBuffer_ > s.buffSize_ then
    match flush s with
    | .error e => .error e
    | .ok s1 => intWriteStore s1 data
  else intWriteStore s data

/-- `StreamWriter::checkSize`. -/
def checkSize (s : StreamWriter) (size : Nat) : Res :=
  if s.sizeLimit_ = 0 then .ok s
  else if size > s.sizeLimit_ then .error (Exn.GeneralException, s)
  else if add32 (add32 size s.currBuffer_) s.currSize_ > s.sizeLimit_ then do
    let s1 ← flush s
    let s2 := { s1 with fdIdx_ := add32 s1.fdIdx_ 1 }
    let name := s2.baseName_ ++ "." ++ toString s2.fdIdx_
    let r := s2.os.openAppend name
    let s3 := { s2 with fd_ := r.1, os := r.2 }
    match r.1 with
    | none => throw (Exn.OpenException, s3)
    | some _ => pure { s3 with currSize_ := 0 }
  else .ok s

/-- The local `size` of `writeFile`, written as the first header word. -/
def headerA (frame : Frame) : Nat := add32 frame.getPayload 4

/-- The local `value` of `writeFile`, written as the second header word. -/
def headerB (channel : Nat) (frame : Frame) : Nat :=
  (frame.getFlags &&& 0xFFFFFF) ||| ((channel <<< 24) % U32)

/-- The loop of `writeFile` over the pieces of the frame. -/
def writePieces (s : StreamWriter) : List (List Nat) → Res
  | [] => .ok s
  | d :: ds => do
    let s1 ← intWrite s d
    writePieces s1 ds

/-- `StreamWriter::writeFile(channel, frame)`; `channel` is a `uint8_t`. -/
def writeFile (s : StreamWriter) (channel : Nat) (frame : Frame) : Res :=
  if s.fd_ = none then .ok s
  else do
    let size := headerA frame
    let s1 ← checkSize s size
    let s2 ← intWrite s1 (le32 size)
    let value := headerB channel frame
    let s3 ← intWrite s2 (le32 value)
    let s4 ← writePieces s3 (Frame.readPieces frame.buffers (sub32 size 4))
    pure { s4 with frameCount_ := add32 s4.frameCount_ 1 }

/-- A sequence of `writeFile` calls, one per channel and frame, stopping at the first
exception. -/
def writeFiles (s : StreamWriter) : List (Nat × Frame) → Res
  | [] => .ok s
  | cf :: rest => do
    let s1 ← writeFile s cf.1 cf.2
    writeFiles s1 rest

/-- In the sequence of `intWrite` calls with the given data, started in `s`, no sum
`size + currBuffer_` exceeds the `uint32_t` range. -/
def noWrapWrites (s : StreamWriter) : List (List Nat) → Bool
  | [] => true
  | d :: ds =>
    decide (d.length + s.currBuffer_ < U32) &&
      match intWrite s d with
      | .ok s1 => noWrapWrites s1 ds
      | .error _ => true

/-- The data of the `intWrite` calls of one `writeFile`, in order. -/
def writeFileCalls (channel : Nat) (frame : Frame) : List (List Nat) :=
  le32 (headerA frame) :: le32 (headerB channel frame) ::
    Frame.readPieces frame.buffers (sub32 (headerA frame) 4)

/-- In the sequence of `writeFile` calls started in `s`, no sum `size + currBuffer_` computed
by `intWrite` exceeds the `uint32_t` range. -/
def noWrapRun (s : StreamWriter) : List (Nat × Frame) → Bool
  | [] => true
  | cf :: rest =>
    (match checkSize s (headerA cf.2) with
      | .ok s1 => noWrapWrites s1 (writeFileCalls cf.1 cf.2)
      | .error _ => true) &&
      match writeFile s cf.1 cf.2 with
      | .ok s1 => noWrapRun s1 rest
      | .error _ => true

/-- A writer with a buffer of `size` bytes, opened on `file`, after the `writeFile` calls for
`frames`: the calls `setBufferSize(size)`, `open(file)` and `writeFile`, in this order, on a
new writer. -/
def session (os : Os) (fdIdx0 size : Nat) (file : String) (frames : List (Nat × Frame)) :
    Res := do
  let s1 ← setBufferSize (new os fdIdx0) size
  let s2 ← StreamWriter.open s1 file
  writeFiles s2 frames

end StreamWriter

/-- The record of a frame in the data file as the writer lays it out: the first header word,
the frame size plus 4; the second header word, channel in bits 31:24 and the low 24 bits of
the flags; the payload bytes. -/
def record (channel : Nat) (frame : Frame) : List Nat :=
  le32 ((frame.bytes.length + 4) % U32) ++ le32 (channel * 2 ^ 24 + frame.flags % 2 ^ 24) ++
    frame.bytes

/-- The records of a sequence of frames, one after the other. -/
def records (frames : List (Nat × Frame)) : List Nat :=
  (frames.map fun cf => record cf.1 cf.2).flatten

/-- An operating system without files in which every call succeeds. -/
def sampleOs : Os := { files := fun _ => none, script := [] }

/-- A frame of two Buffers with the payload bytes 1, 2 and 3, and flag word `0x12ABCDEF`. -/
def sampleFrame : Frame := { flags := 0x12ABCDEF, buffers := [[1, 2], [3]] }

/-- A frame without payload. -/
def sampleFrameEmpty : Frame := { flags := 5, buffers := [] }

/-- The writer state of a result: after the return, or when the exception was thrown. -/
def Res.state (r : Res) : StreamWriter :=
  match r with
  | .ok s => s
  | .error e => e.2

/-- A new writer with a 16-byte buffer, opened on the file `data` of `sampleOs`. -/
def sampleOpened : StreamWriter := (StreamWriter.session sampleOs 0 16 "data" []).state

/-- A new writer on `sampleOs` with a 16-byte buffer, not yet opened. -/
def sampleBuffered : StreamWriter :=
  (StreamWriter.setBufferSize (StreamWriter.new sampleOs 0) 16).state

/-- Two frames with their channels. -/
def sampleFrames : List (Nat × Frame) := [(2, sampleFrame), (1, sampleFrameEmpty)]

/-- The writer `sampleOpened` after it wrote `sampleFrames`. -/
def sampleFinal : StreamWriter := (StreamWriter.writeFiles sampleOpened sampleFrames).state

/-- A call `retBuffer(data, meta, rawSize)` made on the Slave with handle `slave`. -/
structure RetBufferCall where
  slave : Nat
  data : Option Mem
  meta_ : Nat
  rawSize : Nat

namespace Buffer

/-- The destructor `Buffer::~Buffer`: the calls it makes on Slaves, and the members after its
body ran (`data_ = NULL`). -/
def destroy (b : Buffer) : List RetBufferCall × Buffer :=
  ([{ slave := b.source_, data := b.data_, meta_ := b.meta_, rawSize := b.rawSize_ }],
    { b with data_ := none })

/-- The public operations of a Buffer, with their arguments. -/
inductive Op where
  | getRawData
  | getPayloadData
  | getMeta
  | setMeta (m : Nat)
  | getRawSize
  | getCount
  | getHeadRoom
  | getAvailable
  | getPayload
  | getFlags
  | setFlags (flags : Nat)
  | getError
  | setError (error : Nat)
  | setSize (size : Nat)
  | setHeadRoom (offset : Nat)
  | read (p : Mem) (offset count : Nat)
  | write (p : Mem) (offset count : Nat)
  | destroy

/-- The calls an operation makes on Slaves and the Buffer after it.  Only the destructor has a
call in its body; the accessors and `read` leave the Buffer as it is. -/
def exec (b : Buffer) : Op → List RetBufferCall × Buffer
  | .setMeta m => ([], setMeta b m)
  | .setFlags flags => ([], setFlags b flags)
  | .setError error => ([], setError b error)
  | .setSize size => ([], setSize b size)
  | .setHeadRoom offset => ([], setHeadRoom b offset)
  | .write p offset count => ([], (write b p offset count).2)
  | .destroy => destroy b
  | _ => ([], b)

/-- The operations are run one after the other: all the calls made on Slaves, in order, and
the Buffer at the end. -/
def execAll (b : Buffer) : List Op → List RetBufferCall × Buffer
  | [] => ([], b)
  | op :: ops => ((exec b op).1 ++ (execAll (exec b op).2 ops).1, (execAll (exec b op).2 ops).2)

/-- A Buffer with used length 3 whose data pointer is `NULL`. -/
def sampleNullUsed : Buffer := setSize sampleNull 3

end Buffer

/-! ## StreamWriter: sessions with a size limit -/

namespace StreamWriter

/-- A writer with size limit `limit` and a buffer of `size` bytes, opened on `file`, after the
`writeFile` calls for `frames`: the calls `setMaxSize(limit)`, `setBufferSize(size)`,
`open(file)` and `writeFile`, in this order, on a new writer. -/
def sessionLimited (os : Os) (fdIdx0 limit size : Nat) (file : String)
    (frames : List (Nat × Frame)) : Res := do
  let s1 ← setBufferSize (setMaxSize (new os fdIdx0) limit) size
  let s2 ← StreamWriter.open s1 file
  writeFiles s2 frames

/-- A sequence of `writeFile` calls that goes on after an exception, with the writer as the
exception left it: the writer at the end, and the number of calls that returned without an
exception on a writer whose file was open. -/
def writeFilesCount (s : StreamWriter) : List (Nat × Frame) → StreamWriter × Nat
  | [] => (s, 0)
  | cf :: rest =>
    match writeFile s cf.1 cf.2 with
    | .ok q =>
      ((writeFilesCount q rest).1,
        (writeFilesCount q rest).2 + (if s.fd_ = none then 0 else 1))
    | .error e => writeFilesCount e.2 rest

end StreamWriter

/-- The open writer `sampleOpened` with its frame counter at the largest `uint32_t`. -/
def sampleCountMax : StreamWriter := { sampleOpened with frameCount_ := 4294967295 }

/-- A frame with a payload of 4 bytes. -/
def sampleFrameLong : Frame := { flags := 0, buffers := [[1, 2, 3, 4]] }

/-- A new unbuffered writer with size limit 7, opened on the file `data` of `sampleOs`. -/
def sampleLimited : StreamWriter :=
  (StreamWriter.open (StreamWriter.setMaxSize (StreamWriter.new sampleOs 0) 7) "data").state

/-! ## Stream Master (modelled from the spec) -/

/-- Modelled from the spec: a Slave as a Master sees it (`Slave.h`, `Slave.cpp` are not among
the sources).  `id` names the Slave; `ready frame timeout` tells whether a delivery of `frame`
to it completes, or is accepted into its processing queue, within `timeout`. -/
structure Slave where
  id : Nat
  ready : Frame → Nat → Bool

/-- One delivery of a frame to a Slave by `sendFrame`, and whether it completed in time. -/
structure Delivery where
  slave : Nat
  frame : Frame
  completed : Bool

/-- The data members of `rogue::interfaces::stream::Master` declared in `Master.h`: the
primary Slave (`none` until `setSlave`) and the vector of secondary Slaves. -/
structure Master where
  primary_ : Option Slave
  slaves_ : List Slave

namespace Master

/-- Modelled from the spec: the constructor `Master::Master()` (`Master.cpp` is not among the
sources): no Slave is registered. -/
def new : Master := { primary_ := none, slaves_ := [] }

/-- Modelled from the spec: `Master::setSlave` (`Master.cpp` is not among the sources) sets
the one primary Slave. -/
def setSlave (m : Master) (slave : Slave) : Master := { m with primary_ := some slave }

/-- Modelled from the spec: `Master::addSlave` (`Master.cpp` is not among the sources) adds a
secondary Slave. -/
def addSlave (m : Master) (slave : Slave) : Master :=
  { m with slaves_ := m.slaves_ ++ [slave] }

/-- The registered Slaves: the primary one, then the secondary ones in the order they were
added. -/
def subscribers (m : Master) : List Slave := m.primary_.toList ++ m.slaves_

/-- Modelled from the spec: `Master::sendFrame(frame, timeout)` (`Master.cpp` is not among the
sources) pushes the frame to every registered Slave and returns success only if the delivery
to all of them completes within `timeout`.  The result is the returned flag and the deliveries
made, in order. -/
def sendFrame (m : Master) (frame : Frame) (timeout : Nat) : Bool × List Delivery :=
  ((subscribers m).all fun s => s.ready frame timeout,
    (subscribers m).map fun s =>
      { slave := s.id, frame := frame, completed := s.ready frame timeout })

/-- A Master after `setSlave(primary)` and one `addSlave` for each of `secondaries`. -/
def wired (primary : Slave) (secondaries : List Slave) : Master :=
  secondaries.foldl addSlave (setSlave new primary)

end Master

/-! ## Packetizer (modelled from the spec) -/

/-- Modelled from the spec: the wire unit of the packetizer (`Controller.h`, `Controller.cpp`
are not among the sources), with the header fields the spec lists: channel id, sequence number,
tail-of-frame flag, payload length and integrity check value.  `flags` is the flag word of the
frame the Segment is cut from; it travels with the data of the Segment, because the receive
path of the spec sets the flags of a finished frame from the accumulated data and the round
trip of the spec reproduces the original flags. -/
structure Segment where
  channel : Nat
  seq : Nat
  tail : Bool
  length : Nat
  flags : Nat
  payload : List Nat
  check : Nat

/-- Modelled from the spec: what both ends of a packetizer link agree on, fixed for the link.
`mtu` and `headerSize` bound the payload of a Segment, and the header leaves room for payload
(`room`).  The sequence number is a field of `seqBits` bits, a fixed width of at least the 8
bits that the spec names as the smaller of its two examples (`wide`).  `crc` computes the
integrity check value from the header fields and the data of a Segment. -/
structure PacketizerConfig where
  mtu : Nat
  headerSize : Nat
  seqBits : Nat
  crc : Nat → Nat → Bool → Nat → Nat → List Nat → Nat
  room : headerSize < mtu
  wide : 8 ≤ seqBits

/-- The size of the sequence window: sequence numbers are taken modulo it. -/
def PacketizerConfig.window (cfg : PacketizerConfig) : Nat := 2 ^ cfg.seqBits

/-- Modelled from the spec: the reassembly context of a channel: the frame under construction
(without Buffers when idle), the expected next sequence number, and whether the context, idle
after an error, still awaits the Segment with the tail flag, which ends the broken message.
The timestamp of the last accepted Segment is left out: no inactivity timeout runs in the
model. -/
structure RxContext where
  acc : Frame
  expected : Nat
  awaitTail : Bool

/-- Modelled from the spec: the receive side of the packetizer Controller: one reassembly
context per channel, and the frames handed to the Application Slaves with `acceptFrame`, each
with its channel, in order. -/
structure Controller where
  rx : Nat → RxContext
  delivered : List (Nat × Frame)

namespace Controller

/-- The idle reassembly context: nothing accumulated, a fresh sequence is expected. -/
def idle : RxContext :=
  { acc := { flags := 0, buffers := [] }, expected := 0, awaitTail := false }

/-- The idle reassembly context after an error in the middle of a message: the rest of the
message, up to the Segment with the tail flag, is still to come. -/
def awaiting : RxContext := { idle with awaitTail := true }

/-- A Controller that received nothing yet. -/
def init : Controller := { rx := fun _ => idle, delivered := [] }

/-- Modelled from the spec: the chunks of `bytes` (the chunking of the Controller is not among
the sources), each of `size` bytes except the last, which has what is left; there is always a
last chunk, so that a frame without payload is sent as one empty Segment.  `fuel` bounds the
number of chunks before the last. -/
def chunksFuel : Nat → Nat → List Nat → List (List Nat)
  | 0, _, bytes => [bytes]
  | fuel + 1, size, bytes =>
    if bytes.length ≤ size then [bytes]
    else bytes.take size :: chunksFuel fuel size (bytes.drop size)

/-- Modelled from the spec: the payload of a frame cut into chunks no larger than
`mtu - headerSize`. -/
def chunks (cfg : PacketizerConfig) (f : Frame) : List (List Nat) :=
  chunksFuel f.bytes.length (cfg.mtu - cfg.headerSize) f.bytes

/-- The Segment with sequence number `seq` that carries `payload` of a frame with flag word
`flags` on `channel`. -/
def segment (cfg : PacketizerConfig) (channel seq : Nat) (tail : Bool) (flags : Nat)
    (payload : List Nat) : Segment :=
  { channel := channel, seq := seq, tail := tail, length := payload.length, flags := flags,
    payload := payload, check := cfg.crc channel seq tail payload.length flags payload }

/-- Modelled from the spec: the Segments for the chunks of a frame with flag word `flags` (the
transmit path of the Controller is not among the sources), the first of them with sequence
counter `n`; the counter wraps modulo the window, and the tail flag is set on the last chunk
only. -/
def segmentsFrom (cfg : PacketizerConfig) (channel flags : Nat) :
    Nat → List (List Nat) → List Segment
  | _, [] => []
  | n, [x] => [segment cfg channel (n % cfg.window) true flags x]
  | n, x :: y :: rest =>
    segment cfg channel (n % cfg.window) false flags x ::
      segmentsFrom cfg channel flags (n + 1) (y :: rest)

/-- Modelled from the spec: the transmit path for one outgoing frame on `channel`: the
Segments pushed to the Transport, in order, numbered from 0. -/
def transmit (cfg : PacketizerConfig) (channel : Nat) (f : Frame) : List Segment :=
  segmentsFrom cfg channel f.getFlags 0 (chunks cfg f)

/-- The contexts with the context of `channel` replaced. -/
def setRx (rx : Nat → RxContext) (channel : Nat) (ctx : RxContext) : Nat → RxContext :=
  fun c => if c = channel then ctx else rx c

/-- The frame under construction with the data of an accepted Segment appended. -/
def accumulate (acc : Frame) (seg : Segment) : Frame :=
  { flags := seg.flags, buffers := acc.buffers ++ [seg.payload] }

/-- Modelled from the spec: the receive path for one incoming Segment.  A Segment whose
integrity check fails or whose sequence number is not the expected one is discarded together
with the partial accumulation, and the context is idle again; it then awaits the Segment with
the tail flag (the offending Segment itself when it has the flag), discarding what comes before
it, so that the next Segment accepted is the fresh start, numbered 0, of the following message
and an incomplete frame is never delivered.  Otherwise the data of the Segment is appended and
the expected sequence number advances; with the tail flag set the frame is finished, handed to
the Application Slave of the channel, and the context is idle again. -/
def receive (cfg : PacketizerConfig) (st : Controller) (seg : Segment) : Controller :=
  if (st.rx seg.channel).awaitTail then
    if seg.tail then { st with rx := setRx st.rx seg.channel idle } else st
  else if seg.check ≠ cfg.crc seg.channel seg.seq seg.tail seg.length seg.flags seg.payload ∨
      seg.seq ≠ (st.rx seg.channel).expected then
    { st with rx := setRx st.rx seg.channel (if seg.tail then idle else awaiting) }
  else if seg.tail then
    { rx := setRx st.rx seg.channel idle,
      delivered := st.delivered ++ [(seg.channel, accumulate (st.rx seg.channel).acc seg)] }
  else
    { st with
      rx := setRx st.rx seg.channel
        { acc := accumulate (st.rx seg.channel).acc seg,
          expected := ((st.rx seg.channel).expected + 1) % cfg.window,
          awaitTail := false } }

/-- The Segments are received one after the other. -/
def receiveAll (cfg : PacketizerConfig) (st : Controller) (segs : List Segment) : Controller :=
  segs.foldl (receive cfg) st

end Controller

/-- A packetizer with MTU 6, a header of 4 bytes, sequence numbers of 8 bits, and a check
value that adds up the header fields, the flag word and the payload bytes. -/
def sampleCfg : PacketizerConfig :=
  { mtu := 6, headerSize := 4, seqBits := 8,
    crc := fun c s t n fl p => c + s + (if t then 1 else 0) + n + fl + p.sum,
    room := by decide, wide := by decide }

/-- A frame with a payload of 12 bytes and flag word 1. -/
def sampleFrame12 : Frame :=
  { flags := 1, buffers := [[10, 11, 12, 13, 14], [15, 16, 17, 18, 19, 20, 21]] }

/-- The packetizer of the concrete scenario of the spec: MTU 188 and a header of 4 bytes, with
sequence numbers of 8 bits and the check value of `sampleCfg`. -/
def sampleCfg188 : PacketizerConfig :=
  { mtu := 188, headerSize := 4, seqBits := 8, crc := sampleCfg.crc,
    room := by decide, wide := by decide }

/-- A frame with a payload of 500 bytes, the byte at position `i` being `i` modulo 256, and
flag word 3. -/
def sampleFrame500 : Frame :=
  { flags := 3, buffers := [(List.range 500).map fun i => i % 256] }

/-! ## StreamWriter: buffer bound and rotation -/

namespace StreamWriter

/-- The bytes waiting in the buffer fit into the buffer. -/
def bufferInv (s : StreamWriter) : Prop := s.currBuffer_ ≤ s.buffSize_

instance bufferInvDecidable (s : StreamWriter) : Decidable (bufferInv s) :=
  inferInstanceAs (Decidable (s.currBuffer_ ≤ s.buffSize_))

/-- In the `intWrite` calls of `writeFile(channel, frame)` started in `s`, no sum
`size + currBuffer_` exceeds the `uint32_t` range. -/
def noWrapFile (s : StreamWriter) (channel : Nat) (frame : Frame) : Bool :=
  match checkSize s (headerA frame) with
  | .ok s1 => noWrapWrites s1 (writeFileCalls channel frame)
  | .error _ => true

end StreamWriter

/-- A new writer with size limit 12 and a buffer of 16 bytes, opened on `data`, after it wrote
`sampleFrame` on channel 2: the 11 bytes of the record wait in the buffer and the file `data.1`
is empty. -/
def sampleRotate : StreamWriter :=
  (StreamWriter.sessionLimited sampleOs 0 12 16 "data" [(2, sampleFrame)]).state

/-- The writer `sampleRotate` after it wrote `sampleFrame` once more. -/
def sampleRotated : StreamWriter := (StreamWriter.writeFile sampleRotate 2 sampleFrame).state

/-! ## Arithmetic helpers -/

theorem sub32_of_le {a b : Nat} (hb : b ≤ a) (ha : a < U32) : sub32 a b = a - b := by
  unfold sub32
  have h : a + U32 - b = (a - b) + U32 := by omega
  rw [h, Nat.add_mod_right]
  exact Nat.mod_eq_of_lt (by omega)

theorem sub32_self (a : Nat) : sub32 a a = 0 := by
  unfold sub32
  have h : a + U32 - a = U32 := by omega
  rw [h, Nat.mod_self]

theorem add32_of_lt {a b : Nat} (h : a + b < U32) : add32 a b = a + b := by
  unfold add32
  exact Nat.mod_eq_of_lt h

theorem memcpy_inside (dst src : Mem) (dOff sOff n i : Nat) (hi : i < n) :
    memcpy dst dOff src sOff n (dOff + i) = src (sOff + i) := by
  unfold memcpy
  have h : dOff ≤ dOff + i ∧ dOff + i < dOff + n := ⟨by omega, by omega⟩
  rw [if_pos h]
  congr 1
  omega

theorem memcpy_outside (dst src : Mem) (dOff sOff n j : Nat) (hj : j < dOff ∨ dOff + n ≤ j) :
    memcpy dst dOff src sOff n j = dst j := by
  unfold memcpy
  have h : ¬ (dOff ≤ j ∧ j < dOff + n) := by omega
  rw [if_neg h]

/-! ## Buffer: claims C2 to C8 -/

namespace Buffer

theorem write_null (b : Buffer) (p : Mem) (offset n : Nat) (hd : b.data_ = none) :
    write b p offset n = (0, b) := by
  unfold write
  rw [hd]

theorem write_beyond (b : Buffer) (d p : Mem) (offset n : Nat) (hd : b.data_ = some d)
    (hraw : b.rawSize_ < U32) (hh : b.headRoom_ ≤ b.rawSize_)
    (ho : offset ≥ b.rawSize_ - b.headRoom_) :
    write b p offset n = (0, b) := by
  unfold write
  rw [hd]
  simp only [sub32_of_le hh hraw]
  rw [if_pos ho]

theorem write_inside (b : Buffer) (d p : Mem) (offset n : Nat) (hd : b.data_ = some d)
    (hraw : b.rawSize_ < U32) (hh : b.headRoom_ ≤ b.rawSize_)
    (ho : offset < b.rawSize_ - b.headRoom_) :
    write b p offset n =
      (min n (b.rawSize_ - b.headRoom_ - offset),
        { b with
          count_ := offset + b.headRoom_ + min n (b.rawSize_ - b.headRoom_ - offset),
          data_ := some (memcpy d (b.headRoom_ + offset) p 0
            (min n (b.rawSize_ - b.headRoom_ - offset))) }) := by
  unfold write
  rw [hd]
  have h1 : sub32 b.rawSize_ b.headRoom_ = b.rawSize_ - b.headRoom_ := sub32_of_le hh hraw
  have h2 : sub32 (b.rawSize_ - b.headRoom_) offset = b.rawSize_ - b.headRoom_ - offset :=
    sub32_of_le (by omega) (by omega)
  simp only [h1, h2]
  rw [if_neg (by omega)]
  by_cases hn : n > b.rawSize_ - b.headRoom_ - offset
  · have hm : min n (b.rawSize_ - b.headRoom_ - offset) = b.rawSize_ - b.headRoom_ - offset :=
      Nat.min_eq_right (by omega)
    rw [if_pos hn, hm]
    have h3 : add32 offset b.headRoom_ = offset + b.headRoom_ := add32_of_lt (by omega)
    have h4 : add32 (offset + b.headRoom_) (b.rawSize_ - b.headRoom_ - offset) =
        offset + b.headRoom_ + (b.rawSize_ - b.headRoom_ - offset) := add32_of_lt (by omega)
    rw [h3, h4]
  · have hm : min n (b.rawSize_ - b.headRoom_ - offset) = n := Nat.min_eq_left (by omega)
    rw [if_neg hn, hm]
    have h3 : add32 offset b.headRoom_ = offset + b.headRoom_ := add32_of_lt (by omega)
    have h4 : add32 (offset + b.headRoom_) n = offset + b.headRoom_ + n :=
      add32_of_lt (by omega)
    rw [h3, h4]

/-- C3 (the claim as stated fails): a Buffer of raw size 4 without head room whose data
pointer is `NULL` is asked to write 1 byte at offset 0, which lies below
`rawSize - headRoom`; `write` returns 0, not `min 1 4 = 1`. -/
theorem write_null_counterexample :
    sampleNull.headRoom_ ≤ sampleNull.rawSize_ ∧
      0 < sampleNull.rawSize_ - sampleNull.headRoom_ ∧
      (write sampleNull (fun _ => 7) 0 1).1 ≠
        min 1 (sampleNull.rawSize_ - sampleNull.headRoom_ - 0) := by
  decide

/-- C3 (amended): for every Buffer with `headRoom ≤ rawSize`, every source `p`, offset and byte
count `n`: when the data pointer is `NULL`, `write` returns 0 and changes nothing; when it is
not, `write` returns `w = 0` if `offset ≥ rawSize - headRoom` and
`w = min n (rawSize - headRoom - offset)` otherwise, the block afterwards holds the first `w`
bytes of `p` at the raw positions `headRoom + offset + i`, `i < w`, every other position is
unchanged, and so is every position outside `[headRoom, rawSize)`. -/
theorem write_bounds (b : Buffer) (p : Mem) (offset n : Nat)
    (hraw : b.rawSize_ < U32) (hh : b.headRoom_ ≤ b.rawSize_) :
    (b.data_ = none → write b p offset n = (0, b)) ∧
    ∀ d, b.data_ = some d →
      (offset ≥ b.rawSize_ - b.headRoom_ → (write b p offset n).1 = 0) ∧
      (offset < b.rawSize_ - b.headRoom_ →
        (write b p offset n).1 = min n (b.rawSize_ - b.headRoom_ - offset)) ∧
      ∃ d', (write b p offset n).2.data_ = some d' ∧
        (∀ i, i < (write b p offset n).1 → d' (b.headRoom_ + offset + i) = p i) ∧
        (∀ j, j < b.headRoom_ + offset ∨ b.headRoom_ + offset + (write b p offset n).1 ≤ j →
          d' j = d j) ∧
        (∀ j, j < b.headRoom_ ∨ b.rawSize_ ≤ j → d' j = d j) := by
  refine ⟨write_null b p offset n, ?_⟩
  intro d hd
  by_cases ho : offset ≥ b.rawSize_ - b.headRoom_
  · have hw := write_beyond b d p offset n hd hraw hh ho
    rw [hw]
    refine ⟨fun _ => rfl, fun h => absurd h (by omega), d, hd, ?_, fun _ _ => rfl,
      fun _ _ => rfl⟩
    intro i hi
    exact absurd hi (Nat.not_lt_zero i)
  · have ho2 : offset < b.rawSize_ - b.headRoom_ := by omega
    have hw := write_inside b d p offset n hd hraw hh ho2
    rw [hw]
    refine ⟨fun h => absurd h ho, fun _ => rfl, _, rfl, ?_, ?_, ?_⟩
    · intro i hi
      have := memcpy_inside d p (b.headRoom_ + offset) 0 _ i hi
      simpa using this
    · intro j hj
      exact memcpy_outside d p (b.headRoom_ + offset) 0 _ j hj
    · intro j hj
      apply memcpy_outside
      have : min n (b.rawSize_ - b.headRoom_ - offset) ≤ b.rawSize_ - b.headRoom_ - offset :=
        Nat.min_le_right _ _
      omega

/-- C3 (witness): a 3-byte write at offset 1 into an 8-byte block with head room 2. -/
theorem write_bounds_witness :
    (write sampleEmpty (fun i => i + 10) 1 3).1 =
        min 3 (sampleEmpty.rawSize_ - sampleEmpty.headRoom_ - 1) ∧
      ∃ d', (write sampleEmpty (fun i => i + 10) 1 3).2.data_ = some d' ∧
        (∀ i, i < (write sampleEmpty (fun i => i + 10) 1 3).1 →
          d' (sampleEmpty.headRoom_ + 1 + i) = i + 10) :=
  have h := (write_bounds sampleEmpty (fun i => i + 10) 1 3 (by decide) (by decide)).2
    (fun _ => 0) rfl
  ⟨h.2.1 (by decide), h.2.2.imp fun _ hd => ⟨hd.1, hd.2.1⟩⟩

/-- C2 (code at the failing input): `sampleWritten`, a Buffer of raw size 10, got a head room
of 2 and a write of 3 bytes at offset 0.  Its used length is then 5, its payload 3, and
`getAvailable` answers 3, so that `getAvailable + getPayload + headRoom` is 8 and not the raw
size 10, although `headRoom ≤ count ≤ rawSize` holds.  A further write at the end of the
payload still stores 5 bytes, two more than `getAvailable` announced. -/
theorem getAvailable_failing_input :
    sampleWritten.headRoom_ ≤ sampleWritten.rawSize_ ∧
      sampleWritten.headRoom_ ≤ sampleWritten.count_ ∧
      sampleWritten.count_ ≤ sampleWritten.rawSize_ ∧
      sampleWritten.rawSize_ = 10 ∧
      getAvailable sampleWritten + getPayload sampleWritten + sampleWritten.headRoom_ = 8 ∧
      getAvailable sampleWritten = 3 ∧
      (write sampleWritten (fun _ => 9) (getPayload sampleWritten) 5).1 = 5 := by
  decide

theorem read_null (b : Buffer) (p : Mem) (offset n : Nat) (hd : b.data_ = none) :
    read b p offset n = (0, p) := by
  unfold read
  rw [hd]

theorem read_empty (b : Buffer) (d p : Mem) (offset n : Nat) (hd : b.data_ = some d)
    (hc : b.count_ < U32) (h : b.count_ < b.headRoom_ ∨ offset ≥ b.count_ - b.headRoom_) :
    read b p offset n = (0, p) := by
  unfold read
  rw [hd]
  by_cases h1 : b.count_ < b.headRoom_
  · simp only [if_pos h1]
  · have h2 : sub32 b.count_ b.headRoom_ = b.count_ - b.headRoom_ :=
      sub32_of_le (by omega) hc
    simp only [if_neg h1, h2]
    rw [if_pos (by omega)]

theorem read_inside (b : Buffer) (d p : Mem) (offset n : Nat) (hd : b.data_ = some d)
    (hc : b.count_ < U32) (h1 : ¬ b.count_ < b.headRoom_)
    (h2 : offset < b.count_ - b.headRoom_) :
    read b p offset n =
      (min n (b.count_ - b.headRoom_ - offset),
        memcpy p 0 d (b.headRoom_ + offset) (min n (b.count_ - b.headRoom_ - offset))) := by
  unfold read
  rw [hd]
  have e1 : sub32 b.count_ b.headRoom_ = b.count_ - b.headRoom_ :=
    sub32_of_le (by omega) hc
  have e2 : sub32 (b.count_ - b.headRoom_) offset = b.count_ - b.headRoom_ - offset :=
    sub32_of_le (by omega) (by omega)
  simp only [if_neg h1, e1, e2]
  rw [if_neg (by omega)]
  by_cases hn : n > b.count_ - b.headRoom_ - offset
  · rw [if_pos hn, Nat.min_eq_right (by omega)]
  · rw [if_neg hn, Nat.min_eq_left (by omega)]

/-- C4 (the claim as stated fails): a Buffer with used length 4, no head room and a `NULL`
data pointer is asked to read 1 byte at offset 0, which lies below `count - headRoom`; `read`
returns 0, not `min 1 4 = 1`. -/
theorem read_null_counterexample :
    ¬ (setSize sampleNull 4).count_ < (setSize sampleNull 4).headRoom_ ∧
      0 < (setSize sampleNull 4).count_ - (setSize sampleNull 4).headRoom_ ∧
      (read (setSize sampleNull 4) (fun _ => 0) 0 1).1 ≠
        min 1 ((setSize sampleNull 4).count_ - (setSize sampleNull 4).headRoom_ - 0) := by
  decide

/-- C4 (amended): for every Buffer state, destination `p`, offset and byte count `n`: when the
data pointer is `NULL`, `read` returns 0 and copies nothing; when it is not, `read` returns
`r = 0` and copies nothing if `count < headRoom` or `offset ≥ count - headRoom`, and
`r = min n (count - headRoom - offset)` otherwise; the destination then holds at `i < r` the
stored byte at raw position `headRoom + offset + i` and is unchanged from `r` on; the raw
positions read, `[headRoom + offset, headRoom + offset + r)`, lie inside `[headRoom, count)`,
and the result is the same for any other block with the same bytes in `[headRoom, count)`. -/
theorem read_bounds (b : Buffer) (p : Mem) (offset n : Nat) (hc : b.count_ < U32) :
    (b.data_ = none → read b p offset n = (0, p)) ∧
    ∀ d, b.data_ = some d →
      (b.count_ < b.headRoom_ ∨ offset ≥ b.count_ - b.headRoom_ →
        read b p offset n = (0, p)) ∧
      (¬ b.count_ < b.headRoom_ → offset < b.count_ - b.headRoom_ →
        (read b p offset n).1 = min n (b.count_ - b.headRoom_ - offset)) ∧
      (∀ i, i < (read b p offset n).1 →
        (read b p offset n).2 i = d (b.headRoom_ + offset + i)) ∧
      (∀ j, (read b p offset n).1 ≤ j → (read b p offset n).2 j = p j) ∧
      (0 < (read b p offset n).1 → b.headRoom_ + offset + (read b p offset n).1 ≤ b.count_) ∧
      ∀ e : Mem, (∀ j, b.headRoom_ ≤ j → j < b.count_ → e j = d j) →
        read { b with data_ := some e } p offset n = read b p offset n := by
  refine ⟨read_null b p offset n, ?_⟩
  intro d hd
  by_cases h : b.count_ < b.headRoom_ ∨ offset ≥ b.count_ - b.headRoom_
  · have hr := read_empty b d p offset n hd hc h
    have hr2 : ∀ e : Mem, read { b with data_ := some e } p offset n = (0, p) :=
      fun e => read_empty { b with data_ := some e } e p offset n rfl hc h
    rw [hr]
    refine ⟨fun _ => rfl, fun h1 h2 => absurd h (by omega), ?_, fun _ _ => rfl, ?_,
      fun e _ => hr2 e⟩
    · intro i hi
      exact absurd hi (Nat.not_lt_zero i)
    · intro h0
      exact absurd h0 (Nat.lt_irrefl 0)
  · have h1 : ¬ b.count_ < b.headRoom_ := fun h1 => h (Or.inl h1)
    have h2 : offset < b.count_ - b.headRoom_ := by omega
    have hr := read_inside b d p offset n hd hc h1 h2
    have hm : min n (b.count_ - b.headRoom_ - offset) ≤ b.count_ - b.headRoom_ - offset :=
      Nat.min_le_right _ _
    rw [hr]
    refine ⟨fun h3 => absurd h3 h, fun _ _ => rfl, ?_, ?_, ?_, ?_⟩
    · intro i hi
      have := memcpy_inside p d 0 (b.headRoom_ + offset) _ i hi
      simpa using this
    · intro j hj
      exact memcpy_outside p d 0 (b.headRoom_ + offset) _ j (Or.inr (by simpa using hj))
    · intro _
      show b.headRoom_ + offset + min n (b.count_ - b.headRoom_ - offset) ≤ b.count_
      omega
    · intro e he
      rw [read_inside { b with data_ := some e } e p offset n rfl hc h1 h2]
      dsimp only
      congr 1
      funext j
      unfold memcpy
      by_cases hj : 0 ≤ j ∧ j < 0 + min n (b.count_ - b.headRoom_ - offset)
      · rw [if_pos hj, if_pos hj]
        apply he <;> omega
      · rw [if_neg hj, if_neg hj]

/-- C4 (witness): reading 5 bytes at offset 1 from a Buffer holding 3 payload bytes behind a
head room of 2 returns the 2 bytes left. -/
theorem read_bounds_witness :
    (read sampleFilled (fun _ => 0) 1 5).1 =
        min 5 (sampleFilled.count_ - sampleFilled.headRoom_ - 1) ∧
      ∀ i, i < (read sampleFilled (fun _ => 0) 1 5).1 →
        (read sampleFilled (fun _ => 0) 1 5).2 i = sampleFilled.headRoom_ + 1 + i + 20 :=
  have h := (read_bounds sampleFilled (fun _ => 0) 1 5 (by decide)).2 (fun i => i + 20) rfl
  ⟨h.2.1 (by decide) (by decide), h.2.2.1⟩

/-- C5 (the claim as stated fails): a Buffer of raw size 4 with used length 0, no head room and
a `NULL` data pointer is asked to write 1 byte at offset 1.  The offset lies below
`rawSize - headRoom` and `headRoom + offset + w = 1` exceeds the used length 0, but the used
length afterwards is still 0, not `offset + headRoom + w = 1`. -/
theorem write_extends_null_counterexample :
    sampleNull.headRoom_ ≤ sampleNull.rawSize_ ∧
      1 < sampleNull.rawSize_ - sampleNull.headRoom_ ∧
      sampleNull.headRoom_ + 1 + (write sampleNull (fun _ => 7) 1 1).1 > sampleNull.count_ ∧
      (write sampleNull (fun _ => 7) 1 1).2.count_ ≠
        1 + sampleNull.headRoom_ + (write sampleNull (fun _ => 7) 1 1).1 := by
  decide

/-- C5 (amended): for every Buffer with a non-null data pointer and `headRoom ≤ rawSize`, and
every `write(p, offset, n)` with `offset < rawSize - headRoom` that ends past the current used
length (`headRoom + offset + w > count`, `w` the returned count), the used length afterwards
equals `offset + headRoom + w`. -/
theorem write_extends_count (b : Buffer) (d p : Mem) (offset n : Nat)
    (hd : b.data_ = some d) (hraw : b.rawSize_ < U32) (hh : b.headRoom_ ≤ b.rawSize_)
    (ho : offset < b.rawSize_ - b.headRoom_)
    (_hpast : b.headRoom_ + offset + (write b p offset n).1 > b.count_) :
    (write b p offset n).2.count_ = offset + b.headRoom_ + (write b p offset n).1 := by
  rw [write_inside b d p offset n hd hraw hh ho]

/-- C5 (witness): 3 bytes written at offset 1 behind a head room of 2 into an empty Buffer of
raw size 8 leave the used length at 6. -/
theorem write_extends_count_witness :
    (write sampleEmpty (fun _ => 7) 1 3).2.count_ = 1 + 2 + 3 :=
  write_extends_count sampleEmpty (fun _ => 0) (fun _ => 7) 1 3 rfl (by decide) (by decide)
    (by decide) (by decide)

theorem write_preserves_inv (b : Buffer) (p : Mem) (offset n : Nat)
    (hraw : b.rawSize_ < U32) (hinv : Inv b) : Inv (write b p offset n).2 := by
  have hh : b.headRoom_ ≤ b.rawSize_ := Nat.le_trans hinv.2 hinv.1
  cases hd : b.data_ with
  | none => rw [write_null b p offset n hd]; exact hinv
  | some d =>
    by_cases ho : offset ≥ b.rawSize_ - b.headRoom_
    · rw [write_beyond b d p offset n hd hraw hh ho]; exact hinv
    · have ho2 : offset < b.rawSize_ - b.headRoom_ := by omega
      rw [write_inside b d p offset n hd hraw hh ho2]
      have hm : min n (b.rawSize_ - b.headRoom_ - offset) ≤ b.rawSize_ - b.headRoom_ - offset :=
        Nat.min_le_right _ _
      unfold Inv
      dsimp only
      omega

/-- C6 (the claim as stated fails): `setHeadRoom(1)` on a newly constructed Buffer of raw size
4, which satisfies the invariant, gives head room 1 above the used length 0; and `setSize(5)`
on the same Buffer gives a used length above the raw size. -/
theorem setters_break_inv_counterexample :
    Inv sampleNull ∧ ¬ Inv (setHeadRoom sampleNull 1) ∧ ¬ Inv (setSize sampleNull 5) := by
  unfold Inv
  decide

/-- C6 (amended): the invariant `count ≤ rawSize` and `headRoom ≤ count` holds for a newly
constructed Buffer and is preserved by `setMeta`, `setError`, `setFlags`, `read` (which returns
no new Buffer state) and `write`; `setSize(size)` preserves it when
`headRoom ≤ size ≤ rawSize` and `setHeadRoom(offset)` when `offset ≤ count`. -/
theorem inv_preserved (b : Buffer) (hraw : b.rawSize_ < U32) (hinv : Inv b) :
    (∀ source data meta rawSize flags0, Inv (new source data meta rawSize flags0)) ∧
    (∀ m, Inv (setMeta b m)) ∧ (∀ e, Inv (setError b e)) ∧ (∀ f, Inv (setFlags b f)) ∧
    (∀ p offset n, Inv (write b p offset n).2) ∧
    (∀ size, b.headRoom_ ≤ size → size ≤ b.rawSize_ → Inv (setSize b size)) ∧
    (∀ offset, offset ≤ b.count_ → Inv (setHeadRoom b offset)) := by
  refine ⟨?_, fun _ => hinv, fun _ => hinv, fun _ => hinv,
    fun p offset n => write_preserves_inv b p offset n hraw hinv, ?_, ?_⟩
  · intro source data meta rawSize flags0
    exact ⟨Nat.zero_le _, Nat.le_refl _⟩
  · intro size h1 h2
    exact ⟨h2, h1⟩
  · intro offset h1
    exact ⟨hinv.1, h1⟩

/-- C6 (witness): the invariant after a write of 9 bytes at offset 1 into a new Buffer of raw
size 8. -/
theorem inv_preserved_witness :
    Inv sampleWritten ∧ Inv (write sampleWritten (fun _ => 7) 1 9).2 :=
  ⟨by unfold Inv; decide,
    (inv_preserved sampleWritten (by decide) (by unfold Inv; decide)).2.2.2.2.1
      (fun _ => 7) 1 9⟩

/-- C7: for every Buffer with `count ≤ rawSize`, `getAvailable` equals
`(rawSize - count) - headRoom` when `rawSize - count ≥ headRoom` and 0 otherwise. -/
theorem getAvailable_clipped (b : Buffer) (hraw : b.rawSize_ < U32)
    (hc : b.count_ ≤ b.rawSize_) :
    getAvailable b =
      if b.rawSize_ - b.count_ ≥ b.headRoom_ then (b.rawSize_ - b.count_) - b.headRoom_
      else 0 := by
  unfold getAvailable
  have h1 : sub32 b.rawSize_ b.count_ = b.rawSize_ - b.count_ := sub32_of_le hc hraw
  simp only [h1]
  by_cases h : b.rawSize_ - b.count_ < b.headRoom_
  · rw [if_pos h, if_neg (by omega)]
  · rw [if_neg h, if_pos (by omega)]
    exact sub32_of_le (by omega) (by omega)

/-- C7 (witness): raw size 10, used length 5, head room 2 leave 3 bytes available. -/
theorem getAvailable_clipped_witness :
    sampleWritten.count_ ≤ sampleWritten.rawSize_ ∧
      getAvailable sampleWritten =
        if sampleWritten.rawSize_ - sampleWritten.count_ ≥ sampleWritten.headRoom_
        then (sampleWritten.rawSize_ - sampleWritten.count_) - sampleWritten.headRoom_
        else 0 :=
  ⟨by decide, getAvailable_clipped sampleWritten (by decide) (by decide)⟩

/-- C8: for every Buffer with `headRoom ≤ rawSize`, `getAvailable` is 0 whenever
`count = rawSize`. -/
theorem getAvailable_full (b : Buffer) (_hh : b.headRoom_ ≤ b.rawSize_)
    (hc : b.count_ = b.rawSize_) : getAvailable b = 0 := by
  unfold getAvailable
  rw [hc, sub32_self]
  by_cases h : 0 < b.headRoom_
  · simp only [if_pos h]
  · have h0 : b.headRoom_ = 0 := by omega
    rw [if_neg h, h0, sub32_self]

/-- C8 (witness): a full Buffer of raw size 10 with head room 2. -/
theorem getAvailable_full_witness :
    getAvailable (setSize sampleWritten 10) = 0 :=
  getAvailable_full (setSize sampleWritten 10) (by decide) rfl

end Buffer

/-! ## StreamWriter: claims C1, C9 and C10 -/

namespace StreamWriter

theorem pending_zero (s : StreamWriter) (h : s.currBuffer_ = 0) : s.pending = [] := by
  unfold pending
  rw [h]
  rfl

theorem flush_ok (s q : StreamWriter) (h : flush s = .ok q) :
    q.stream = s.stream ∧ q.currBuffer_ = 0 ∧ q.fd_ = s.fd_ ∧ q.buffSize_ = s.buffSize_ ∧
      q.sizeLimit_ = s.sizeLimit_ := by
  unfold flush at h
  by_cases hc : s.currBuffer_ > 0
  · rw [if_pos hc] at h
    cases hfd : s.fd_ with
    | none => simp [Os.writeAppend, hfd] at h
    | some name =>
      by_cases hr : s.os.next.1 = true
      · simp only [Os.writeAppend, hfd, hr, if_true, Except.ok.injEq] at h
        subst h
        simp [stream, fileBytes, pending, hfd, Os.content]
      · simp [Os.writeAppend, hfd, hr] at h
  · rw [if_neg hc] at h
    injection h with h
    subst h
    exact ⟨rfl, by omega, rfl, rfl, rfl⟩

theorem listMem_range (l : List Nat) : (List.range l.length).map (listMem l) = l := by
  apply List.ext_getElem
  · simp
  · intro i h1 h2
    simp [listMem, List.getD_eq_getElem?_getD]
    rw [List.getElem?_eq_getElem (by simpa using h1)]
    rfl

theorem pending_memcpy (buf : Mem) (cb : Nat) (data : List Nat) :
    (List.range (cb + data.length)).map (memcpy buf cb (listMem data) 0 data.length) =
      (List.range cb).map buf ++ data := by
  rw [List.range_add, List.map_append, List.map_map]
  congr 1
  · apply List.map_congr_left
    intro j hj
    have hj2 : j < cb := List.mem_range.mp hj
    exact memcpy_outside buf (listMem data) cb 0 data.length j (Or.inl hj2)
  · conv_rhs => rw [← listMem_range data]
    apply List.map_congr_left
    intro i hi
    have hi2 : i < data.length := List.mem_range.mp hi
    simp only [Function.comp]
    have := memcpy_inside buf (listMem data) cb 0 data.length i hi2
    simpa using this

theorem intWriteStore_ok (s1 q : StreamWriter) (data : List Nat) (hfd1 : s1.fd_ ≠ none)
    (e5 : data.length + s1.currBuffer_ < U32)
    (e6 : s1.currBuffer_ = 0 ∨ data.length + s1.currBuffer_ ≤ s1.buffSize_)
    (h : intWriteStore s1 data = .ok q) :
    q.stream = s1.stream ++ data ∧ q.fd_ = s1.fd_ ∧ q.buffSize_ = s1.buffSize_ ∧
      q.sizeLimit_ = s1.sizeLimit_ ∧ q.currBuffer_ ≤ q.buffSize_ := by
  unfold intWriteStore at h
  by_cases hraw : data.length > s1.buffSize_
  · simp only [if_pos hraw] at h
    have hcb : s1.currBuffer_ = 0 := by omega
    cases hname : s1.fd_ with
    | none => exact absurd hname hfd1
    | some name =>
      by_cases hr : s1.os.next.1 = true
      · simp only [Os.writeAppend, hname, hr, if_true, Except.ok.injEq] at h
        subst h
        refine ⟨?_, ?_, rfl, rfl, ?_⟩
        · simp [stream, fileBytes, hname, Os.content, pending, hcb]
        · simp [hname]
        · simp [hcb]
      · simp [Os.writeAppend, hname, hr] at h
  · simp only [if_neg hraw] at h
    by_cases hb : s1.buffSize_ > 0 ∧ data.length > 0
    · simp only [if_pos hb, Except.ok.injEq] at h
      subst h
      have hle : data.length + s1.currBuffer_ ≤ s1.buffSize_ := by
        rcases e6 with e6 | e6
        · rw [e6]; omega
        · exact e6
      have hadd2 : add32 s1.currBuffer_ data.length = s1.currBuffer_ + data.length :=
        add32_of_lt (by omega)
      refine ⟨?_, rfl, rfl, rfl, ?_⟩
      · simp only [stream, fileBytes, pending, hadd2, pending_memcpy, List.append_assoc]
      · simp only [hadd2]; omega
    · simp only [if_neg hb, Except.ok.injEq] at h
      subst h
      have hd : data = [] := by
        apply List.eq_nil_of_length_eq_zero
        omega
      refine ⟨?_, rfl, rfl, rfl, ?_⟩
      · rw [hd, List.append_nil]
      · rcases e6 with e6 | e6
        · rw [e6]; omega
        · omega

theorem intWrite_ok (s q : StreamWriter) (data : List Nat) (hfd : s.fd_ ≠ none)
    (hnw : data.length + s.currBuffer_ < U32) (h : intWrite s data = .ok q) :
    q.stream = s.stream ++ data ∧ q.fd_ = s.fd_ ∧ q.buffSize_ = s.buffSize_ ∧
      q.sizeLimit_ = s.sizeLimit_ ∧ q.currBuffer_ ≤ q.buffSize_ := by
  unfold intWrite at h
  simp only [if_neg hfd] at h
  have hadd : add32 data.length s.currBuffer_ = data.length + s.currBuffer_ := add32_of_lt hnw
  rw [hadd] at h
  by_cases hc : data.length + s.currBuffer_ > s.buffSize_
  · simp only [if_pos hc] at h
    cases hfl : flush s with
    | error e => rw [hfl] at h; cases h
    | ok s1 =>
      rw [hfl] at h
      have hf := flush_ok s s1 hfl
      have hst := intWriteStore_ok s1 q data (by rw [hf.2.2.1]; exact hfd)
        (by rw [hf.2.1]; omega) (Or.inl hf.2.1) h
      refine ⟨?_, ?_, ?_, ?_, hst.2.2.2.2⟩
      · rw [hst.1, hf.1]
      · rw [hst.2.1, hf.2.2.1]
      · rw [hst.2.2.1, hf.2.2.2.1]
      · rw [hst.2.2.2.1, hf.2.2.2.2]
  · simp only [if_neg hc] at h
    exact intWriteStore_ok s q data hfd hnw (Or.inr (by omega)) h

theorem writePieces_ok (ps : List (List Nat)) (s q : StreamWriter) (hfd : s.fd_ ≠ none)
    (hnw : noWrapWrites s ps = true) (h : writePieces s ps = .ok q) :
    q.stream = s.stream ++ ps.flatten ∧ q.fd_ = s.fd_ ∧ q.buffSize_ = s.buffSize_ ∧
      q.sizeLimit_ = s.sizeLimit_ := by
  induction ps generalizing s with
  | nil =>
    unfold writePieces at h
    injection h with h
    subst h
    simp
  | cons d ds ih =>
    unfold writePieces at h
    unfold noWrapWrites at hnw
    cases h1 : intWrite s d with
    | error e => rw [h1] at h; cases h
    | ok s1 =>
      rw [h1] at h hnw
      simp only [Bool.and_eq_true, decide_eq_true_eq] at hnw
      simp only [bind, Except.bind] at h
      have hw := intWrite_ok s s1 d hfd hnw.1 h1
      have hr := ih s1 (by rw [hw.2.1]; exact hfd) hnw.2 h
      refine ⟨?_, ?_, ?_, ?_⟩
      · rw [hr.1, hw.1, List.flatten_cons, List.append_assoc]
      · rw [hr.2.1, hw.2.1]
      · rw [hr.2.2.1, hw.2.2.1]
      · rw [hr.2.2.2, hw.2.2.2.1]

theorem checkSize_ok (s q : StreamWriter) (size : Nat) (hfd : s.fd_ ≠ none)
    (h : checkSize s size = .ok q) :
    q.fd_ ≠ none ∧ q.buffSize_ = s.buffSize_ ∧ q.sizeLimit_ = s.sizeLimit_ := by
  unfold checkSize at h
  by_cases h0 : s.sizeLimit_ = 0
  · rw [if_pos h0] at h
    injection h with h
    subst h
    exact ⟨hfd, rfl, rfl⟩
  · rw [if_neg h0] at h
    by_cases h1 : size > s.sizeLimit_
    · rw [if_pos h1] at h
      cases h
    · rw [if_neg h1] at h
      by_cases h2 : add32 (add32 size s.currBuffer_) s.currSize_ > s.sizeLimit_
      · rw [if_pos h2] at h
        cases hfl : flush s with
        | error e => rw [hfl] at h; cases h
        | ok s1 =>
          rw [hfl] at h
          have hf := flush_ok s s1 hfl
          simp only [bind, Except.bind] at h
          by_cases hr : s1.os.next.1 = true
          · simp only [Os.openAppend, hr, if_true, pure, Except.pure, Except.ok.injEq] at h
            subst h
            refine ⟨?_, hf.2.2.2.1, hf.2.2.2.2⟩
            simp
          · simp [Os.openAppend, hr, throw, throwThe, MonadExceptOf.throw] at h
      · rw [if_neg h2] at h
        injection h with h
        subst h
        exact ⟨hfd, rfl, rfl⟩

theorem checkSize_unlimited (s : StreamWriter) (size : Nat) (h0 : s.sizeLimit_ = 0) :
    checkSize s size = .ok s := by
  unfold checkSize
  rw [if_pos h0]

theorem writeFile_steps (s q : StreamWriter) (c : Nat) (f : Frame) (hfd : s.fd_ ≠ none)
    (h : writeFile s c f = .ok q) :
    ∃ q0 q1 q2 q3, checkSize s (headerA f) = .ok q0 ∧
      intWrite q0 (le32 (headerA f)) = .ok q1 ∧
      intWrite q1 (le32 (headerB c f)) = .ok q2 ∧
      writePieces q2 (Frame.readPieces f.buffers (sub32 (headerA f) 4)) = .ok q3 ∧
      q = { q3 with frameCount_ := add32 q3.frameCount_ 1 } := by
  unfold writeFile at h
  rw [if_neg hfd] at h
  simp only [bind, Except.bind] at h
  cases h0 : checkSize s (headerA f) with
  | error e => rw [h0] at h; cases h
  | ok q0 =>
    rw [h0] at h
    simp only at h
    cases h1 : intWrite q0 (le32 (headerA f)) with
    | error e => rw [h1] at h; cases h
    | ok q1 =>
      rw [h1] at h
      simp only at h
      cases h2 : intWrite q1 (le32 (headerB c f)) with
      | error e => rw [h2] at h; cases h
      | ok q2 =>
        rw [h2] at h
        simp only at h
        cases h3 : writePieces q2 (Frame.readPieces f.buffers (sub32 (headerA f) 4)) with
        | error e => rw [h3] at h; cases h
        | ok q3 =>
          rw [h3] at h
          simp only [pure, Except.pure, Except.ok.injEq] at h
          exact ⟨q0, q1, q2, q3, rfl, h1, h2, h3, h.symm⟩

theorem headerA_eq (f : Frame) : headerA f = (f.bytes.length + 4) % U32 := by
  unfold headerA add32 Frame.getPayload
  exact Nat.mod_add_mod _ _ _

theorem headerB_eq (c : Nat) (f : Frame) (hc : c < 256) :
    headerB c f = c * 2 ^ 24 + f.flags % 2 ^ 24 := by
  unfold headerB Frame.getFlags
  have h1 : (f.flags % U32) &&& 0xFFFFFF = f.flags % 2 ^ 24 := by
    have h := Nat.and_pow_two_sub_one_eq_mod (f.flags % U32) 24
    have e : (2 : Nat) ^ 24 - 1 = 0xFFFFFF := by norm_num
    rw [e] at h
    rw [h]
    unfold U32
    omega
  have h2 : (c <<< 24) % U32 = c <<< 24 := by
    rw [Nat.shiftLeft_eq]
    apply Nat.mod_eq_of_lt
    unfold U32
    omega
  rw [h1, h2]
  have h3 := Nat.mul_add_lt_is_or (Nat.mod_lt f.flags (by norm_num : 0 < 2 ^ 24)) c
  rw [Nat.or_comm, Nat.shiftLeft_eq, Nat.mul_comm c, ← h3]

theorem readPieces_flatten (bs : List (List Nat)) (n : Nat) :
    (Frame.readPieces bs n).flatten = bs.flatten.take n := by
  induction bs generalizing n with
  | nil => simp [Frame.readPieces]
  | cons c cs ih =>
    unfold Frame.readPieces
    by_cases hn : n ≤ c.length
    · rw [if_pos hn]
      simp [List.take_append_eq_append_take, Nat.sub_eq_zero_of_le hn]
    · rw [if_neg hn]
      have hc : List.take n c = c := List.take_of_length_le (by omega)
      simp only [List.flatten_cons, ih, List.take_append_eq_append_take, hc]

theorem readPieces_length (bs : List (List Nat)) (n : Nat) :
    ∀ p ∈ Frame.readPieces bs n, p.length ≤ n := by
  induction bs generalizing n with
  | nil =>
    intro p hp
    simp [Frame.readPieces] at hp
    simp [hp]
  | cons c cs ih =>
    intro p hp
    unfold Frame.readPieces at hp
    by_cases hn : n ≤ c.length
    · rw [if_pos hn] at hp
      simp at hp
      simp [hp]
    · rw [if_neg hn] at hp
      rcases List.mem_cons.mp hp with hp | hp
      · rw [hp]; omega
      · have := ih (n - c.length) p hp
        omega

theorem headerA_sub (f : Frame) : sub32 (headerA f) 4 = f.getPayload := by
  have h : f.getPayload < U32 := Nat.mod_lt _ (by decide)
  unfold headerA add32 sub32
  unfold U32 at *
  omega

theorem writeFileCalls_flatten (c : Nat) (f : Frame) (hc : c < 256)
    (hlen : f.bytes.length < U32) : (writeFileCalls c f).flatten = record c f := by
  unfold writeFileCalls record
  rw [List.flatten_cons, List.flatten_cons, readPieces_flatten, headerA_sub, headerA_eq,
    headerB_eq c f hc]
  have hp : f.getPayload = f.bytes.length := Nat.mod_eq_of_lt hlen
  rw [hp]
  have ht : List.take f.bytes.length f.buffers.flatten = f.bytes := by
    unfold Frame.bytes
    exact List.take_length _
  rw [ht, List.append_assoc]

theorem writeFile_stream (s q : StreamWriter) (c : Nat) (f : Frame) (hfd : s.fd_ ≠ none)
    (h0 : s.sizeLimit_ = 0) (hc : c < 256) (hlen : f.bytes.length < U32)
    (hnw : noWrapWrites s (writeFileCalls c f) = true) (h : writeFile s c f = .ok q) :
    q.stream = s.stream ++ record c f ∧ q.fd_ = s.fd_ ∧ q.buffSize_ = s.buffSize_ ∧
      q.sizeLimit_ = 0 := by
  obtain ⟨q0, q1, q2, q3, e0, e1, e2, e3, e4⟩ := writeFile_steps s q c f hfd h
  rw [checkSize_unlimited s _ h0] at e0
  injection e0 with e0
  subst e0
  have hcalls : writePieces s (writeFileCalls c f) = .ok q3 := by
    unfold writeFileCalls writePieces
    rw [e1]
    simp only [bind, Except.bind]
    unfold writePieces
    rw [e2]
    exact e3
  have hp := writePieces_ok _ s q3 hfd hnw hcalls
  rw [writeFileCalls_flatten c f hc hlen] at hp
  subst e4
  refine ⟨hp.1, hp.2.1, hp.2.2.1, ?_⟩
  show q3.sizeLimit_ = 0
  rw [hp.2.2.2, h0]

theorem writeFiles_stream (frames : List (Nat × Frame)) (s q : StreamWriter)
    (hfd : s.fd_ ≠ none) (h0 : s.sizeLimit_ = 0)
    (hfr : ∀ cf ∈ frames, cf.1 < 256 ∧ cf.2.bytes.length < U32)
    (hnw : noWrapRun s frames = true) (h : writeFiles s frames = .ok q) :
    q.stream = s.stream ++ records frames ∧ q.fd_ = s.fd_ ∧ q.buffSize_ = s.buffSize_ := by
  induction frames generalizing s with
  | nil =>
    unfold writeFiles at h
    injection h with h
    subst h
    simp [records]
  | cons cf rest ih =>
    unfold writeFiles at h
    unfold noWrapRun at hnw
    rw [checkSize_unlimited s _ h0] at hnw
    cases h1 : writeFile s cf.1 cf.2 with
    | error e => rw [h1] at h; cases h
    | ok s1 =>
      rw [h1] at h hnw
      simp only [Bool.and_eq_true] at hnw
      simp only [bind, Except.bind] at h
      have hcf := hfr cf (List.mem_cons_self _ _)
      have hw := writeFile_stream s s1 cf.1 cf.2 hfd h0 hcf.1 hcf.2 hnw.1 h1
      have hr := ih s1 (by rw [hw.2.1]; exact hfd) hw.2.2.2
        (fun x hx => hfr x (List.mem_cons_of_mem _ hx)) hnw.2 h
      refine ⟨?_, ?_, ?_⟩
      · rw [hr.1, hw.1]
        simp [records, List.append_assoc]
      · rw [hr.2.1, hw.2.1]
      · rw [hr.2.2, hw.2.2.1]

theorem next_files (os : Os) : os.next.2.files = os.files := by
  unfold Os.next
  cases os.script <;> rfl

theorem flush_idle (s : StreamWriter) (hcb : s.currBuffer_ = 0) : flush s = .ok s := by
  unfold flush
  rw [if_neg (by omega)]

theorem intWrite_unbuffered (s q : StreamWriter) (d : List Nat) (hB : s.buffSize_ = 0)
    (hcb : s.currBuffer_ = 0) (h : intWrite s d = .ok q) :
    q.buffSize_ = 0 ∧ q.currBuffer_ = 0 := by
  have hst : intWriteStore s d = .ok q → q.buffSize_ = 0 ∧ q.currBuffer_ = 0 := by
    intro h
    unfold intWriteStore at h
    by_cases hraw : d.length > s.buffSize_
    · simp only [if_pos hraw] at h
      by_cases hr : (s.os.writeAppend s.fd_ d).1 = true
      · simp only [hr, if_true, Except.ok.injEq] at h
        subst h
        exact ⟨hB, hcb⟩
      · simp [hr] at h
    · simp only [if_neg hraw] at h
      rw [if_neg (by omega)] at h
      injection h with h
      subst h
      exact ⟨hB, hcb⟩
  unfold intWrite at h
  by_cases hfd : s.fd_ = none
  · simp only [if_pos hfd] at h
    injection h with h
    subst h
    exact ⟨hB, hcb⟩
  · simp only [if_neg hfd, flush_idle s hcb] at h
    by_cases hc : add32 d.length s.currBuffer_ > s.buffSize_
    · simp only [if_pos hc] at h
      exact hst h
    · simp only [if_neg hc] at h
      exact hst h

theorem noWrapWrites_unbuffered (ps : List (List Nat)) (s : StreamWriter)
    (hB : s.buffSize_ = 0) (hcb : s.currBuffer_ = 0) (hl : ∀ p ∈ ps, p.length < U32) :
    noWrapWrites s ps = true := by
  induction ps generalizing s with
  | nil => rfl
  | cons d ds ih =>
    unfold noWrapWrites
    have hd := hl d (List.mem_cons_self _ _)
    simp only [Bool.and_eq_true, decide_eq_true_eq]
    refine ⟨by omega, ?_⟩
    cases h1 : intWrite s d with
    | error e => rfl
    | ok s1 =>
      have hu := intWrite_unbuffered s s1 d hB hcb h1
      exact ih s1 hu.1 hu.2 (fun p hp => hl p (List.mem_cons_of_mem _ hp))

theorem writePieces_unbuffered (ps : List (List Nat)) (s q : StreamWriter)
    (hB : s.buffSize_ = 0) (hcb : s.currBuffer_ = 0) (h : writePieces s ps = .ok q) :
    q.buffSize_ = 0 ∧ q.currBuffer_ = 0 := by
  induction ps generalizing s with
  | nil =>
    unfold writePieces at h
    injection h with h
    subst h
    exact ⟨hB, hcb⟩
  | cons d ds ih =>
    unfold writePieces at h
    cases h1 : intWrite s d with
    | error e => rw [h1] at h; cases h
    | ok s1 =>
      rw [h1] at h
      simp only [bind, Except.bind] at h
      have hu := intWrite_unbuffered s s1 d hB hcb h1
      exact ih s1 hu.1 hu.2 h

theorem writeFile_unbuffered (s q : StreamWriter) (c : Nat) (f : Frame) (hfd : s.fd_ ≠ none)
    (h0 : s.sizeLimit_ = 0) (hB : s.buffSize_ = 0) (hcb : s.currBuffer_ = 0)
    (h : writeFile s c f = .ok q) : q.buffSize_ = 0 ∧ q.currBuffer_ = 0 := by
  obtain ⟨q0, q1, q2, q3, e0, e1, e2, e3, e4⟩ := writeFile_steps s q c f hfd h
  rw [checkSize_unlimited s _ h0] at e0
  injection e0 with e0
  subst e0
  have u1 := intWrite_unbuffered s q1 _ hB hcb e1
  have u2 := intWrite_unbuffered q1 q2 _ u1.1 u1.2 e2
  have u3 := writePieces_unbuffered _ q2 q3 u2.1 u2.2 e3
  subst e4
  exact u3

theorem writeFileCalls_length (c : Nat) (f : Frame) :
    ∀ p ∈ writeFileCalls c f, p.length < U32 := by
  intro p hp
  unfold writeFileCalls at hp
  have h4 : (4 : Nat) < U32 := by decide
  rcases List.mem_cons.mp hp with hp | hp
  · rw [hp]; exact h4
  · rcases List.mem_cons.mp hp with hp | hp
    · rw [hp]; exact h4
    · have h1 := readPieces_length _ _ p hp
      rw [headerA_sub] at h1
      have h2 : f.getPayload < U32 := Nat.mod_lt _ (by decide)
      omega

theorem noWrapRun_unbuffered (frames : List (Nat × Frame)) (s : StreamWriter)
    (hfd : s.fd_ ≠ none) (h0 : s.sizeLimit_ = 0) (hB : s.buffSize_ = 0)
    (hcb : s.currBuffer_ = 0) (hfr : ∀ cf ∈ frames, cf.1 < 256 ∧ cf.2.bytes.length < U32) :
    noWrapRun s frames = true := by
  induction frames generalizing s with
  | nil => rfl
  | cons cf rest ih =>
    unfold noWrapRun
    rw [checkSize_unlimited s _ h0]
    have hnw := noWrapWrites_unbuffered _ s hB hcb (writeFileCalls_length cf.1 cf.2)
    simp only [Bool.and_eq_true]
    refine ⟨hnw, ?_⟩
    cases h1 : writeFile s cf.1 cf.2 with
    | error e => rfl
    | ok s1 =>
      have hcf := hfr cf (List.mem_cons_self _ _)
      have hw := writeFile_stream s s1 cf.1 cf.2 hfd h0 hcf.1 hcf.2 hnw h1
      have hu := writeFile_unbuffered s s1 cf.1 cf.2 hfd h0 hB hcb h1
      exact ih s1 (by rw [hw.2.1]; exact hfd) hw.2.2.2 hu.1 hu.2
        (fun x hx => hfr x (List.mem_cons_of_mem _ hx))

theorem writeFiles_unbuffered (frames : List (Nat × Frame)) (s q : StreamWriter)
    (hfd : s.fd_ ≠ none) (h0 : s.sizeLimit_ = 0) (hB : s.buffSize_ = 0)
    (hcb : s.currBuffer_ = 0) (hfr : ∀ cf ∈ frames, cf.1 < 256 ∧ cf.2.bytes.length < U32)
    (h : writeFiles s frames = .ok q) : q.currBuffer_ = 0 := by
  induction frames generalizing s with
  | nil =>
    unfold writeFiles at h
    injection h with h
    subst h
    exact hcb
  | cons cf rest ih =>
    unfold writeFiles at h
    cases hw : writeFile s cf.1 cf.2 with
    | error e => rw [hw] at h; cases h
    | ok s1 =>
      rw [hw] at h
      simp only [bind, Except.bind] at h
      have hcf := hfr cf (List.mem_cons_self _ _)
      have hnw := noWrapWrites_unbuffered _ s hB hcb (writeFileCalls_length cf.1 cf.2)
      have hst := writeFile_stream s s1 cf.1 cf.2 hfd h0 hcf.1 hcf.2 hnw hw
      have hub := writeFile_unbuffered s s1 cf.1 cf.2 hfd h0 hB hcb hw
      exact ih s1 (by rw [hst.2.1]; exact hfd) hst.2.2.2 hub.1 hub.2
        (fun z hz => hfr z (List.mem_cons_of_mem _ hz)) h

theorem new_setBufferSize (os : Os) (idx0 size : Nat) (w : StreamWriter)
    (h : setBufferSize (new os idx0) size = .ok w) :
    w.sizeLimit_ = 0 ∧ w.buffSize_ = size ∧ w.os.files = os.files := by
  unfold setBufferSize at h
  by_cases hs : size = (new os idx0).buffSize_
  · rw [if_pos hs] at h
    injection h with h
    subst h
    exact ⟨rfl, hs.symm, rfl⟩
  · rw [if_neg hs] at h
    have hs0 : size ≠ 0 := hs
    rw [flush_idle _ rfl] at h
    simp only [bind, Except.bind, if_neg hs0] at h
    by_cases hr : os.next.1 = true
    · simp only [Os.malloc, new, hr, if_true, pure, Except.pure, Except.ok.injEq] at h
      subst h
      exact ⟨rfl, rfl, next_files os⟩
    · simp [Os.malloc, new, hr, throw, throwThe, MonadExceptOf.throw] at h

theorem open_ok (w s0 : StreamWriter) (file : String) (h0 : w.sizeLimit_ = 0)
    (h : StreamWriter.open w file = .ok s0) :
    s0.fd_ ≠ none ∧ s0.sizeLimit_ = 0 ∧ s0.buffSize_ = w.buffSize_ ∧ s0.currBuffer_ = 0 ∧
      s0.stream = w.os.content file := by
  unfold StreamWriter.open at h
  simp only [h0, Nat.lt_irrefl, if_false] at h
  by_cases hr : w.os.next.1 = true
  · simp only [Os.openAppend, hr, if_true, Except.ok.injEq] at h
    subst h
    refine ⟨by simp, rfl, rfl, rfl, ?_⟩
    simp [stream, fileBytes, pending, Os.content]
  · simp [Os.openAppend, hr] at h

theorem session_steps (os : Os) (idx0 size : Nat) (file : String)
    (frames : List (Nat × Frame)) (u : StreamWriter)
    (h : session os idx0 size file frames = .ok u) :
    ∃ w s0, setBufferSize (new os idx0) size = .ok w ∧ StreamWriter.open w file = .ok s0 ∧
      writeFiles s0 frames = .ok u := by
  unfold session at h
  cases h1 : setBufferSize (new os idx0) size with
  | error e => rw [h1] at h; cases h
  | ok w =>
    rw [h1] at h
    simp only [bind, Except.bind] at h
    cases h2 : StreamWriter.open w file with
    | error e => rw [h2] at h; cases h
    | ok s0 =>
      rw [h2] at h
      exact ⟨w, s0, rfl, h2, h⟩

/-- C10: a new StreamWriter gets a buffer of `size` bytes (0: no buffer) and is opened on
`file` without a size limit.  After any sequence of `writeFile` calls that all return, and in
which no `size + currBuffer_` of `intWrite` leaves the 32-bit range, the bytes of the file
followed by the `currBuffer_` bytes waiting in the buffer are the bytes the file had when it
was opened followed by the records of the frames in call order, each record being its two
header words and its payload bytes.  An unbuffered writer run on the same file contents with
the same frames has nothing waiting and its file holds exactly this byte stream. -/
theorem buffered_stream_eq_records (os : Os) (idx0 size : Nat) (file : String)
    (frames : List (Nat × Frame)) (w s0 s : StreamWriter)
    (hbuf : setBufferSize (new os idx0) size = .ok w)
    (hopen : StreamWriter.open w file = .ok s0)
    (hrun : writeFiles s0 frames = .ok s)
    (hnw : noWrapRun s0 frames = true)
    (hfr : ∀ cf ∈ frames, cf.1 < 256 ∧ cf.2.bytes.length < U32) :
    s.stream = os.content file ++ records frames ∧
      ∀ (os2 : Os) (idx2 : Nat) (u : StreamWriter), os2.content file = os.content file →
        session os2 idx2 0 file frames = .ok u →
        u.pending = [] ∧ u.fileBytes = s.stream := by
  have key : ∀ (o : Os) (i n : Nat) (a b r : StreamWriter),
      setBufferSize (new o i) n = .ok a → StreamWriter.open a file = .ok b →
      writeFiles b frames = .ok r → noWrapRun b frames = true →
      r.stream = o.content file ++ records frames ∧ r.buffSize_ = n := by
    intro o i n a b r ha hb hr hn
    have h1 := new_setBufferSize o i n a ha
    have h2 := open_ok a b file h1.1 hb
    have h3 := writeFiles_stream frames b r h2.1 h2.2.1 hfr hn hr
    refine ⟨?_, ?_⟩
    · rw [h3.1, h2.2.2.2.2]
      unfold Os.content
      rw [h1.2.2]
    · rw [h3.2.2, h2.2.2.1, h1.2.1]
  have hs := key os idx0 size w s0 s hbuf hopen hrun hnw
  refine ⟨hs.1, ?_⟩
  intro os2 idx2 u hcont hu
  obtain ⟨a, b, ha, hb, hr⟩ := session_steps os2 idx2 0 file frames u hu
  have h1 := new_setBufferSize os2 idx2 0 a ha
  have h2 := open_ok a b file h1.1 hb
  have hn := noWrapRun_unbuffered frames b h2.1 h2.2.1 (by rw [h2.2.2.1, h1.2.1]) h2.2.2.2.1 hfr
  have hu2 := key os2 idx2 0 a b u ha hb hr hn
  have hpend : u.pending = [] := pending_zero u
    (writeFiles_unbuffered frames b u h2.1 h2.2.1 (by rw [h2.2.2.1, h1.2.1]) h2.2.2.2.1 hfr hr)
  refine ⟨hpend, ?_⟩
  have hst : u.stream = u.fileBytes := by
    unfold stream
    rw [hpend, List.append_nil]
  rw [← hst, hu2.1, hs.1, hcont]

/-- C10 (witness): a writer with a 16-byte buffer writes `sampleFrame` on channel 2 and an
empty frame on channel 1 into a new file; the second record does not fit behind the first one
in the buffer, which is flushed. -/
theorem buffered_stream_eq_records_witness :
    sampleFinal.stream = sampleOs.content "data" ++ records sampleFrames ∧
      sampleFinal.stream =
        [7, 0, 0, 0, 0xEF, 0xCD, 0xAB, 2, 1, 2, 3, 4, 0, 0, 0, 5, 0, 0, 1] ∧
      sampleFinal.pending = [5, 0, 0, 1] ∧
      ∀ (os2 : Os) (idx2 : Nat) (u : StreamWriter),
        os2.content "data" = sampleOs.content "data" →
        session os2 idx2 0 "data" sampleFrames = .ok u →
        u.pending = [] ∧ u.fileBytes = sampleFinal.stream :=
  have h := buffered_stream_eq_records sampleOs 0 16 "data" sampleFrames sampleBuffered
    sampleOpened sampleFinal rfl rfl rfl rfl (by decide)
  ⟨h.1, by decide, by decide, h.2⟩

end StreamWriter

/-! ## Buffer: claims C14, C19 and C20 -/

namespace Buffer

theorem write_fields (b : Buffer) (p : Mem) (offset n : Nat) :
    (write b p offset n).2.data_.isSome = b.data_.isSome ∧
      (write b p offset n).2.source_ = b.source_ ∧
      (write b p offset n).2.meta_ = b.meta_ ∧
      (write b p offset n).2.rawSize_ = b.rawSize_ := by
  unfold write
  cases hd : b.data_ with
  | none => simp [hd]
  | some d =>
    by_cases ho : offset ≥ sub32 b.rawSize_ b.headRoom_
    · simp [hd, ho]
    · simp [ho]

theorem exec_quiet (b : Buffer) (op : Op) (h : op ≠ Op.destroy) :
    (exec b op).1 = [] ∧ (exec b op).2.data_.isSome = b.data_.isSome ∧
      (exec b op).2.source_ = b.source_ ∧ (exec b op).2.rawSize_ = b.rawSize_ := by
  cases op with
  | destroy => exact absurd rfl h
  | write p offset count =>
    have hw := write_fields b p offset count
    exact ⟨rfl, hw.1, hw.2.1, hw.2.2.2⟩
  | _ => exact ⟨rfl, rfl, rfl, rfl⟩

theorem execAll_quiet (ops : List Op) (b : Buffer) (h : ∀ op ∈ ops, op ≠ Op.destroy) :
    (execAll b ops).1 = [] ∧ (execAll b ops).2.data_.isSome = b.data_.isSome ∧
      (execAll b ops).2.source_ = b.source_ ∧ (execAll b ops).2.rawSize_ = b.rawSize_ := by
  induction ops generalizing b with
  | nil => exact ⟨rfl, rfl, rfl, rfl⟩
  | cons op ops ih =>
    have h1 := exec_quiet b op (h op (List.mem_cons_self _ _))
    have h2 := ih (exec b op).2 (fun o ho => h o (List.mem_cons_of_mem _ ho))
    unfold execAll
    refine ⟨?_, ?_, ?_, ?_⟩
    · show (exec b op).1 ++ (execAll (exec b op).2 ops).1 = []
      rw [h1.1, h2.1]
      rfl
    · exact h2.2.1.trans h1.2.1
    · exact h2.2.2.1.trans h1.2.2.1
    · exact h2.2.2.2.trans h1.2.2.2

theorem execAll_append (ops1 ops2 : List Op) (b : Buffer) :
    (execAll b (ops1 ++ ops2)).1 = (execAll b ops1).1 ++ (execAll (execAll b ops1).2 ops2).1 := by
  induction ops1 generalizing b with
  | nil => rfl
  | cons op ops ih =>
    show (exec b op).1 ++ (execAll (exec b op).2 (ops ++ ops2)).1 = _
    rw [ih]
    show _ = ((exec b op).1 ++ (execAll (exec b op).2 ops).1) ++ _
    rw [List.append_assoc]
    rfl

/-- C14: the destructor of a Buffer makes exactly one call, `retBuffer` on the owning Slave
with the data pointer, meta word and raw size of the Buffer, and clears the data pointer.  No
other operation (accessors, setters, `read`, `write`) makes a call on a Slave or changes
whether the data pointer is set or who the owner is: whatever operations ran before, the
destruction of the Buffer is the only call, made with the members the Buffer then has. -/
theorem destroy_only_return (b : Buffer) (ops : List Op) (h : ∀ op ∈ ops, op ≠ Op.destroy) :
    (destroy b).1 =
        [{ slave := b.source_, data := b.data_, meta_ := b.meta_, rawSize := b.rawSize_ }] ∧
      (destroy b).2.data_ = none ∧
      (execAll b ops).1 = [] ∧
      (execAll b ops).2.data_.isSome = b.data_.isSome ∧
      (execAll b ops).2.source_ = b.source_ ∧
      (execAll b ops).2.rawSize_ = b.rawSize_ ∧
      (execAll b (ops ++ [Op.destroy])).1 =
        [{ slave := b.source_, data := (execAll b ops).2.data_,
           meta_ := (execAll b ops).2.meta_, rawSize := b.rawSize_ }] := by
  have hq := execAll_quiet ops b h
  refine ⟨rfl, rfl, hq.1, hq.2.1, hq.2.2.1, hq.2.2.2, ?_⟩
  rw [execAll_append, hq.1]
  show (destroy (execAll b ops).2).1 ++ [] = _
  rw [List.append_nil]
  unfold destroy
  rw [hq.2.2.1, hq.2.2.2]

/-- C14 (witness): a Buffer of slave 7 is given a head room, written, read and given a new
meta word; its destruction is the only call. -/
theorem destroy_only_return_witness :
    (execAll (new 7 (some (fun _ => 0)) 5 8 0)
        [Op.setHeadRoom 2, Op.write (fun _ => 1) 0 3, Op.read (fun _ => 0) 0 3, Op.getPayload,
          Op.setMeta 9]).1 = [] ∧
      ((execAll (new 7 (some (fun _ => 0)) 5 8 0)
        ([Op.setHeadRoom 2, Op.write (fun _ => 1) 0 3, Op.read (fun _ => 0) 0 3, Op.getPayload,
          Op.setMeta 9] ++ [Op.destroy])).1.map fun c => (c.slave, c.meta_, c.rawSize)) =
        [(7, 9, 8)] :=
  have h := destroy_only_return (new 7 (some (fun _ => 0)) 5 8 0)
    [Op.setHeadRoom 2, Op.write (fun _ => 1) 0 3, Op.read (fun _ => 0) 0 3, Op.getPayload,
      Op.setMeta 9] (by
        intro op hop
        simp only [List.mem_cons, List.mem_singleton, List.not_mem_nil, or_false] at hop
        rcases hop with hop | hop | hop | hop | hop <;> rw [hop] <;> exact Op.noConfusion)
  ⟨h.2.2.1, by decide⟩

/-- C19 (the claim as stated fails): a Buffer of raw size 4 with used length 3, no head room
and a `NULL` data pointer is asked to write 1 byte at offset 1, which lies below
`rawSize - headRoom`.  `write` returns 0 and the used length afterwards is still 3, not
`headRoom + offset + w = 1`. -/
theorem write_sets_count_null_counterexample :
    sampleNullUsed.headRoom_ ≤ sampleNullUsed.rawSize_ ∧
      1 < sampleNullUsed.rawSize_ - sampleNullUsed.headRoom_ ∧
      (write sampleNullUsed (fun _ => 7) 1 1).2.count_ = 3 ∧
      (write sampleNullUsed (fun _ => 7) 1 1).2.count_ ≠
        sampleNullUsed.headRoom_ + 1 + (write sampleNullUsed (fun _ => 7) 1 1).1 := by
  decide

/-- C19 (amended): for every Buffer with a non-null data pointer and `headRoom ≤ rawSize`, and
every `write(p, offset, n)` with `offset < rawSize - headRoom`, the used length afterwards
equals `headRoom + offset + w` (`w` the returned count) whatever the previous used length was;
so a write that ends before the previous end of data reduces `getPayload()`. -/
theorem write_sets_count (b : Buffer) (d p : Mem) (offset n : Nat) (hd : b.data_ = some d)
    (hraw : b.rawSize_ < U32) (hcnt : b.count_ < U32) (hh : b.headRoom_ ≤ b.rawSize_)
    (ho : offset < b.rawSize_ - b.headRoom_) :
    (write b p offset n).2.count_ = b.headRoom_ + offset + (write b p offset n).1 ∧
      (b.headRoom_ + offset + (write b p offset n).1 < b.count_ →
        getPayload (write b p offset n).2 < getPayload b) := by
  rw [write_inside b d p offset n hd hraw hh ho]
  have hm : min n (b.rawSize_ - b.headRoom_ - offset) ≤ b.rawSize_ - b.headRoom_ - offset :=
    Nat.min_le_right _ _
  refine ⟨by dsimp only; omega, ?_⟩
  intro hlt
  dsimp only at hlt
  unfold getPayload
  dsimp only
  rw [if_neg (by omega), if_neg (by omega), sub32_of_le (by omega) (by omega),
    sub32_of_le (by omega) hcnt]
  omega

/-- C19 (witness): in `sampleFilled`, with head room 2 and used length 5, a write of 1 byte at
offset 0 sets the used length to 3 and the payload shrinks from 3 bytes to 1. -/
theorem write_sets_count_witness :
    (write sampleFilled (fun _ => 7) 0 1).2.count_ =
        sampleFilled.headRoom_ + 0 + (write sampleFilled (fun _ => 7) 0 1).1 ∧
      (sampleFilled.headRoom_ + 0 + (write sampleFilled (fun _ => 7) 0 1).1 <
          sampleFilled.count_ →
        getPayload (write sampleFilled (fun _ => 7) 0 1).2 < getPayload sampleFilled) :=
  write_sets_count sampleFilled (fun i => i + 20) (fun _ => 7) 0 1 rfl (by decide) (by decide)
    (by decide) (by decide)

/-- C20: for every Buffer with `headRoom ≤ rawSize` and a non-null data pointer, if
`write(p, offset, n)` returns `w`, then `read(q, offset, w)` on the Buffer after the write
returns `w`, and `q` then holds the first `w` bytes of `p` (and is unchanged from `w` on). -/
theorem write_read_roundtrip (b : Buffer) (d p q : Mem) (offset n : Nat)
    (hd : b.data_ = some d) (hraw : b.rawSize_ < U32) (hcnt : b.count_ < U32)
    (hh : b.headRoom_ ≤ b.rawSize_) :
    (read (write b p offset n).2 q offset (write b p offset n).1).1 = (write b p offset n).1 ∧
      (∀ i, i < (write b p offset n).1 →
        (read (write b p offset n).2 q offset (write b p offset n).1).2 i = p i) ∧
      (∀ j, (write b p offset n).1 ≤ j →
        (read (write b p offset n).2 q offset (write b p offset n).1).2 j = q j) := by
  by_cases ho : offset ≥ b.rawSize_ - b.headRoom_
  · rw [write_beyond b d p offset n hd hraw hh ho]
    dsimp only
    by_cases he : b.count_ < b.headRoom_ ∨ offset ≥ b.count_ - b.headRoom_
    · rw [read_empty b d q offset 0 hd hcnt he]
      refine ⟨rfl, fun i hi => absurd hi (Nat.not_lt_zero i), fun _ _ => rfl⟩
    · rw [read_inside b d q offset 0 hd hcnt (fun h1 => he (Or.inl h1)) (by omega)]
      rw [Nat.zero_min]
      refine ⟨rfl, fun i hi => absurd hi (Nat.not_lt_zero i), ?_⟩
      intro j _
      exact memcpy_outside q d 0 (b.headRoom_ + offset) 0 j (Or.inr (by omega))
  · have ho2 : offset < b.rawSize_ - b.headRoom_ := by omega
    rw [write_inside b d p offset n hd hraw hh ho2]
    dsimp only
    have hm : min n (b.rawSize_ - b.headRoom_ - offset) ≤ b.rawSize_ - b.headRoom_ - offset :=
      Nat.min_le_right _ _
    generalize hw : min n (b.rawSize_ - b.headRoom_ - offset) = w at hm
    by_cases hw0 : w = 0
    · subst hw0
      rw [read_empty _ _ q offset 0 rfl (by dsimp only; omega) (Or.inr (by dsimp only; omega))]
      exact ⟨rfl, fun i hi => absurd hi (Nat.not_lt_zero i), fun _ _ => rfl⟩
    · rw [read_inside _ _ q offset w rfl (by dsimp only; omega) (by dsimp only; omega)
        (by dsimp only; omega)]
      dsimp only
      have hmin : min w (offset + b.headRoom_ + w - b.headRoom_ - offset) = w :=
        Nat.min_eq_left (by omega)
      rw [hmin]
      refine ⟨rfl, ?_, ?_⟩
      · intro i hi
        have h1 := memcpy_inside q (memcpy d (b.headRoom_ + offset) p 0 w) 0
          (b.headRoom_ + offset) w i hi
        have h2 := memcpy_inside d p (b.headRoom_ + offset) 0 w i hi
        simp only [Nat.zero_add] at h1 h2
        rw [h1, h2]
      · intro j hj
        exact memcpy_outside q _ 0 (b.headRoom_ + offset) w j (Or.inr (by omega))

/-- C20 (witness): 3 bytes written at offset 1 into `sampleEmpty` are read back. -/
theorem write_read_roundtrip_witness :
    (read (write sampleEmpty (fun i => i + 10) 1 3).2 (fun _ => 0) 1
        (write sampleEmpty (fun i => i + 10) 1 3).1).1 =
        (write sampleEmpty (fun i => i + 10) 1 3).1 ∧
      (write sampleEmpty (fun i => i + 10) 1 3).1 = 3 ∧
      ∀ i, i < (write sampleEmpty (fun i => i + 10) 1 3).1 →
        (read (write sampleEmpty (fun i => i + 10) 1 3).2 (fun _ => 0) 1
          (write sampleEmpty (fun i => i + 10) 1 3).1).2 i = i + 10 :=
  have h := write_read_roundtrip sampleEmpty (fun _ => 0) (fun i => i + 10) (fun _ => 0) 1 3
    rfl (by decide) (by decide) (by decide)
  ⟨h.1, by decide, h.2.1⟩

end Buffer

/-! ## StreamWriter: claims C11, C12 and C13 -/

namespace StreamWriter

theorem add32_add32_left (a b c : Nat) : add32 (add32 a b) c = (a + b + c) % U32 := by
  unfold add32
  exact Nat.mod_add_mod _ _ _

theorem add32_add32_right (a b c : Nat) : add32 a (add32 b c) = (a + b + c) % U32 := by
  unfold add32
  rw [Nat.add_mod_mod, Nat.add_assoc]

theorem flush_state (s : StreamWriter) :
    (flush s).state.fd_ = s.fd_ ∧ (flush s).state.frameCount_ = s.frameCount_ ∧
      (flush s).state.sizeLimit_ = s.sizeLimit_ ∧ (flush s).state.buffSize_ = s.buffSize_ ∧
      (flush s).state.baseName_ = s.baseName_ ∧ (flush s).state.fdIdx_ = s.fdIdx_ := by
  unfold flush
  by_cases hc : s.currBuffer_ > 0
  · rw [if_pos hc]
    by_cases hr : (s.os.writeAppend s.fd_ s.pending).1 = true
    · simp [hr, Res.state]
    · simp [hr, Res.state]
  · rw [if_neg hc]
    exact ⟨rfl, rfl, rfl, rfl, rfl, rfl⟩

theorem flush_getSize (s q : StreamWriter) (h : flush s = .ok q) : getSize q = getSize s := by
  unfold flush at h
  by_cases hc : s.currBuffer_ > 0
  · rw [if_pos hc] at h
    by_cases hr : (s.os.writeAppend s.fd_ s.pending).1 = true
    · simp only [hr, if_true, Except.ok.injEq] at h
      subst h
      unfold getSize
      dsimp only
      rw [add32_add32_left]
      unfold add32
      rfl
    · simp [hr] at h
  · rw [if_neg hc] at h
    injection h with h
    subst h
    rfl

theorem intWriteStore_state (s : StreamWriter) (d : List Nat) :
    (intWriteStore s d).state.fd_ = s.fd_ ∧
      (intWriteStore s d).state.frameCount_ = s.frameCount_ ∧
      (intWriteStore s d).state.sizeLimit_ = s.sizeLimit_ ∧
      (intWriteStore s d).state.buffSize_ = s.buffSize_ ∧
      (intWriteStore s d).state.baseName_ = s.baseName_ ∧
      (intWriteStore s d).state.fdIdx_ = s.fdIdx_ := by
  unfold intWriteStore
  by_cases hraw : d.length > s.buffSize_
  · simp only [if_pos hraw]
    by_cases hr : (s.os.writeAppend s.fd_ d).1 = true
    · simp [hr, Res.state]
    · simp [hr, Res.state]
  · simp only [if_neg hraw]
    by_cases hb : s.buffSize_ > 0 ∧ d.length > 0
    · simp [hb, Res.state]
    · simp [hb, Res.state]

theorem intWriteStore_getSize (s q : StreamWriter) (d : List Nat)
    (h : intWriteStore s d = .ok q) : getSize q = add32 (getSize s) d.length := by
  unfold intWriteStore at h
  by_cases hraw : d.length > s.buffSize_
  · simp only [if_pos hraw] at h
    by_cases hr : (s.os.writeAppend s.fd_ d).1 = true
    · simp only [hr, if_true, Except.ok.injEq] at h
      subst h
      unfold getSize
      dsimp only
      rw [add32_add32_left, add32_add32_left]
      congr 1
      omega
    · simp [hr] at h
  · simp only [if_neg hraw] at h
    by_cases hb : s.buffSize_ > 0 ∧ d.length > 0
    · simp only [if_pos hb, Except.ok.injEq] at h
      subst h
      unfold getSize
      dsimp only
      rw [add32_add32_left, add32_add32_right]
    · simp only [if_neg hb, Except.ok.injEq] at h
      subst h
      have h0 : d.length = 0 := by omega
      rw [h0]
      unfold getSize
      rw [add32_add32_left]
      rfl

theorem intWrite_state (s : StreamWriter) (d : List Nat) :
    (intWrite s d).state.fd_ = s.fd_ ∧ (intWrite s d).state.frameCount_ = s.frameCount_ ∧
      (intWrite s d).state.sizeLimit_ = s.sizeLimit_ ∧
      (intWrite s d).state.buffSize_ = s.buffSize_ ∧
      (intWrite s d).state.baseName_ = s.baseName_ ∧
      (intWrite s d).state.fdIdx_ = s.fdIdx_ := by
  unfold intWrite
  by_cases hfd : s.fd_ = none
  · simp [hfd, Res.state]
  · simp only [if_neg hfd]
    by_cases hc : add32 d.length s.currBuffer_ > s.buffSize_
    · simp only [if_pos hc]
      have hf := flush_state s
      cases hfl : flush s with
      | error e =>
        rw [hfl] at hf
        exact hf
      | ok s1 =>
        rw [hfl] at hf
        have hs := intWriteStore_state s1 d
        simp only [Res.state] at hf
        exact ⟨hs.1.trans hf.1, hs.2.1.trans hf.2.1, hs.2.2.1.trans hf.2.2.1,
          hs.2.2.2.1.trans hf.2.2.2.1, hs.2.2.2.2.1.trans hf.2.2.2.2.1,
          hs.2.2.2.2.2.trans hf.2.2.2.2.2⟩
    · simp only [if_neg hc]
      exact intWriteStore_state s d

theorem intWrite_getSize (s q : StreamWriter) (d : List Nat) (hfd : s.fd_ ≠ none)
    (h : intWrite s d = .ok q) : getSize q = add32 (getSize s) d.length := by
  unfold intWrite at h
  simp only [if_neg hfd] at h
  by_cases hc : add32 d.length s.currBuffer_ > s.buffSize_
  · simp only [if_pos hc] at h
    cases hfl : flush s with
    | error e => rw [hfl] at h; cases h
    | ok s1 =>
      rw [hfl] at h
      rw [intWriteStore_getSize s1 q d h, flush_getSize s s1 hfl]
  · simp only [if_neg hc] at h
    exact intWriteStore_getSize s q d h

theorem getSize_lt (s : StreamWriter) : getSize s < U32 := by
  unfold getSize add32
  exact Nat.mod_lt _ (by decide)

theorem writePieces_state (ps : List (List Nat)) (s : StreamWriter) :
    (writePieces s ps).state.fd_ = s.fd_ ∧
      (writePieces s ps).state.frameCount_ = s.frameCount_ ∧
      (writePieces s ps).state.sizeLimit_ = s.sizeLimit_ ∧
      (writePieces s ps).state.buffSize_ = s.buffSize_ ∧
      (writePieces s ps).state.baseName_ = s.baseName_ ∧
      (writePieces s ps).state.fdIdx_ = s.fdIdx_ := by
  induction ps generalizing s with
  | nil => exact ⟨rfl, rfl, rfl, rfl, rfl, rfl⟩
  | cons d ds ih =>
    unfold writePieces
    have hw := intWrite_state s d
    cases h1 : intWrite s d with
    | error e =>
      rw [h1] at hw
      exact hw
    | ok s1 =>
      rw [h1] at hw
      simp only [Res.state] at hw
      simp only [bind, Except.bind]
      have hr := ih s1
      exact ⟨hr.1.trans hw.1, hr.2.1.trans hw.2.1, hr.2.2.1.trans hw.2.2.1,
        hr.2.2.2.1.trans hw.2.2.2.1, hr.2.2.2.2.1.trans hw.2.2.2.2.1,
        hr.2.2.2.2.2.trans hw.2.2.2.2.2⟩

theorem writePieces_getSize (ps : List (List Nat)) (s q : StreamWriter) (hfd : s.fd_ ≠ none)
    (h : writePieces s ps = .ok q) :
    getSize q = (getSize s + ps.flatten.length) % U32 := by
  induction ps generalizing s with
  | nil =>
    unfold writePieces at h
    injection h with h
    subst h
    simp only [List.flatten_nil, List.length_nil, Nat.add_zero]
    exact (Nat.mod_eq_of_lt (getSize_lt s)).symm
  | cons d ds ih =>
    unfold writePieces at h
    have hw := intWrite_state s d
    cases h1 : intWrite s d with
    | error e => rw [h1] at h; cases h
    | ok s1 =>
      rw [h1] at h hw
      simp only [Res.state] at hw
      simp only [bind, Except.bind] at h
      rw [ih s1 (by rw [hw.1]; exact hfd) h, intWrite_getSize s s1 d hfd h1]
      simp only [List.flatten_cons, List.length_append]
      unfold add32
      rw [Nat.mod_add_mod, Nat.add_assoc]

theorem checkSize_state (s : StreamWriter) (size : Nat) :
    (checkSize s size).state.frameCount_ = s.frameCount_ ∧
      (checkSize s size).state.sizeLimit_ = s.sizeLimit_ ∧
      (checkSize s size).state.buffSize_ = s.buffSize_ ∧
      (checkSize s size).state.baseName_ = s.baseName_ := by
  unfold checkSize
  by_cases h0 : s.sizeLimit_ = 0
  · rw [if_pos h0]
    exact ⟨rfl, rfl, rfl, rfl⟩
  · rw [if_neg h0]
    by_cases h1 : size > s.sizeLimit_
    · rw [if_pos h1]
      exact ⟨rfl, rfl, rfl, rfl⟩
    · rw [if_neg h1]
      by_cases h2 : add32 (add32 size s.currBuffer_) s.currSize_ > s.sizeLimit_
      · rw [if_pos h2]
        have hf := flush_state s
        cases hfl : flush s with
        | error e =>
          rw [hfl] at hf
          exact ⟨hf.2.1, hf.2.2.1, hf.2.2.2.1, hf.2.2.2.2.1⟩
        | ok s1 =>
          rw [hfl] at hf
          simp only [Res.state] at hf
          simp only [bind, Except.bind]
          by_cases hr : s1.os.next.1 = true
          · simp only [Os.openAppend, hr, if_true, pure, Except.pure, Res.state]
            exact ⟨hf.2.1, hf.2.2.1, hf.2.2.2.1, hf.2.2.2.2.1⟩
          · simp only [Os.openAppend, hr, Bool.false_eq_true, if_false, throw, throwThe,
              MonadExceptOf.throw, Res.state]
            exact ⟨hf.2.1, hf.2.2.1, hf.2.2.2.1, hf.2.2.2.2.1⟩
      · rw [if_neg h2]
        exact ⟨rfl, rfl, rfl, rfl⟩

theorem checkSize_getSize (s q : StreamWriter) (size : Nat) (h : checkSize s size = .ok q) :
    getSize q = getSize s := by
  unfold checkSize at h
  by_cases h0 : s.sizeLimit_ = 0
  · rw [if_pos h0] at h
    injection h with h
    subst h
    rfl
  · rw [if_neg h0] at h
    by_cases h1 : size > s.sizeLimit_
    · rw [if_pos h1] at h
      cases h
    · rw [if_neg h1] at h
      by_cases h2 : add32 (add32 size s.currBuffer_) s.currSize_ > s.sizeLimit_
      · rw [if_pos h2] at h
        cases hfl : flush s with
        | error e => rw [hfl] at h; cases h
        | ok s1 =>
          rw [hfl] at h
          simp only [bind, Except.bind] at h
          by_cases hr : s1.os.next.1 = true
          · simp only [Os.openAppend, hr, if_true, pure, Except.pure, Except.ok.injEq] at h
            subst h
            exact flush_getSize s s1 hfl
          · simp [Os.openAppend, hr, throw, throwThe, MonadExceptOf.throw] at h
      · rw [if_neg h2] at h
        injection h with h
        subst h
        rfl

theorem writeFile_closed (s : StreamWriter) (c : Nat) (f : Frame) (hfd : s.fd_ = none) :
    writeFile s c f = .ok s := by
  unfold writeFile
  rw [if_pos hfd]

theorem writeFile_returns (s q : StreamWriter) (c : Nat) (f : Frame) (hfd : s.fd_ ≠ none)
    (h : writeFile s c f = .ok q) :
    q.fd_ ≠ none ∧ q.frameCount_ = add32 s.frameCount_ 1 ∧
      getSize q = (getSize s + (writeFileCalls c f).flatten.length) % U32 ∧
      q.sizeLimit_ = s.sizeLimit_ ∧ q.buffSize_ = s.buffSize_ := by
  obtain ⟨q0, q1, q2, q3, e0, e1, e2, e3, e4⟩ := writeFile_steps s q c f hfd h
  have c0 := checkSize_ok s q0 _ hfd e0
  have c1 := checkSize_state s (headerA f)
  rw [e0] at c1
  simp only [Res.state] at c1
  have w1 := intWrite_state q0 (le32 (headerA f))
  rw [e1] at w1
  simp only [Res.state] at w1
  have w2 := intWrite_state q1 (le32 (headerB c f))
  rw [e2] at w2
  simp only [Res.state] at w2
  have w3 := writePieces_state (Frame.readPieces f.buffers (sub32 (headerA f) 4)) q2
  rw [e3] at w3
  simp only [Res.state] at w3
  have f1 : q1.fd_ ≠ none := by rw [w1.1]; exact c0.1
  have f2 : q2.fd_ ≠ none := by rw [w2.1]; exact f1
  have g0 := checkSize_getSize s q0 _ e0
  have g1 := intWrite_getSize q0 q1 _ c0.1 e1
  have g2 := intWrite_getSize q1 q2 _ f1 e2
  have g3 := writePieces_getSize _ q2 q3 f2 e3
  subst e4
  refine ⟨?_, ?_, ?_, ?_, ?_⟩
  · show q3.fd_ ≠ none
    rw [w3.1]; exact f2
  · show add32 q3.frameCount_ 1 = add32 s.frameCount_ 1
    rw [w3.2.1, w2.2.1, w1.2.1, c1.1]
  · show getSize q3 = _
    rw [g3, g2, g1, g0]
    have h4 : ∀ v, (le32 v).length = 4 := fun _ => rfl
    unfold writeFileCalls add32
    simp only [List.flatten_cons, List.length_append, h4]
    generalize (Frame.readPieces f.buffers (sub32 (headerA f) 4)).flatten.length = n
    generalize getSize s = g
    unfold U32
    omega
  · show q3.sizeLimit_ = _
    rw [w3.2.2.1, w2.2.2.1, w1.2.2.1, c1.2.1]
  · show q3.buffSize_ = _
    rw [w3.2.2.2.1, w2.2.2.2.1, w1.2.2.2.1, c1.2.2.1]

theorem writeFile_throws (s : StreamWriter) (c : Nat) (f : Frame) (e : Exn × StreamWriter)
    (h : writeFile s c f = .error e) : e.2.frameCount_ = s.frameCount_ := by
  unfold writeFile at h
  by_cases hfd : s.fd_ = none
  · rw [if_pos hfd] at h
    cases h
  · rw [if_neg hfd] at h
    simp only [bind, Except.bind] at h
    have c1 := checkSize_state s (headerA f)
    cases h0 : checkSize s (headerA f) with
    | error e0 =>
      rw [h0] at h c1
      injection h with h
      subst h
      exact c1.1
    | ok q0 =>
      rw [h0] at h c1
      simp only [Res.state] at c1
      simp only at h
      have w1 := intWrite_state q0 (le32 (headerA f))
      cases h1 : intWrite q0 (le32 (headerA f)) with
      | error e1 =>
        rw [h1] at h w1
        injection h with h
        subst h
        exact w1.2.1.trans c1.1
      | ok q1 =>
        rw [h1] at h w1
        simp only [Res.state] at w1
        simp only at h
        have w2 := intWrite_state q1 (le32 (headerB c f))
        cases h2 : intWrite q1 (le32 (headerB c f)) with
        | error e2 =>
          rw [h2] at h w2
          injection h with h
          subst h
          exact w2.2.1.trans (w1.2.1.trans c1.1)
        | ok q2 =>
          rw [h2] at h w2
          simp only [Res.state] at w2
          simp only at h
          have w3 := writePieces_state (Frame.readPieces f.buffers (sub32 (headerA f) 4)) q2
          cases h3 : writePieces q2 (Frame.readPieces f.buffers (sub32 (headerA f) 4)) with
          | error e3 =>
            rw [h3] at h w3
            injection h with h
            subst h
            exact w3.2.1.trans (w2.2.1.trans (w1.2.1.trans c1.1))
          | ok q3 =>
            rw [h3] at h
            simp [pure, Except.pure] at h

theorem writeFiles_total (frames : List (Nat × Frame)) (s q : StreamWriter)
    (hfd : s.fd_ ≠ none) (hfr : ∀ cf ∈ frames, cf.1 < 256 ∧ cf.2.bytes.length < U32)
    (h : writeFiles s frames = .ok q) :
    getSize q = (getSize s + (records frames).length) % U32 := by
  induction frames generalizing s with
  | nil =>
    unfold writeFiles at h
    injection h with h
    subst h
    simp only [records, List.map_nil, List.flatten_nil, List.length_nil, Nat.add_zero]
    exact (Nat.mod_eq_of_lt (getSize_lt s)).symm
  | cons cf rest ih =>
    unfold writeFiles at h
    cases h1 : writeFile s cf.1 cf.2 with
    | error e => rw [h1] at h; cases h
    | ok s1 =>
      rw [h1] at h
      simp only [bind, Except.bind] at h
      have hcf := hfr cf (List.mem_cons_self _ _)
      have hw := writeFile_returns s s1 cf.1 cf.2 hfd h1
      rw [writeFileCalls_flatten cf.1 cf.2 hcf.1 hcf.2] at hw
      rw [ih s1 hw.1 (fun x hx => hfr x (List.mem_cons_of_mem _ hx)) h, hw.2.2.1]
      simp only [records, List.map_cons, List.flatten_cons, List.length_append]
      rw [Nat.mod_add_mod, Nat.add_assoc]

theorem open_state (w s0 : StreamWriter) (file : String)
    (h : StreamWriter.open w file = .ok s0) :
    s0.fd_ ≠ none ∧ s0.totSize_ = 0 ∧ s0.currBuffer_ = 0 ∧ s0.frameCount_ = 0 ∧
      s0.sizeLimit_ = w.sizeLimit_ ∧ s0.buffSize_ = w.buffSize_ := by
  unfold StreamWriter.open at h
  dsimp only at h
  generalize (if w.sizeLimit_ > 0 then file ++ ".1" else file) = name at h
  by_cases hr : w.os.next.1 = true
  · simp only [Os.openAppend, hr, if_true, Except.ok.injEq] at h
    subst h
    exact ⟨by simp, rfl, rfl, rfl, rfl, rfl⟩
  · simp [Os.openAppend, hr] at h

theorem writeFilesCount_frameCount (frames : List (Nat × Frame)) (s : StreamWriter)
    (h : s.frameCount_ < U32) :
    (writeFilesCount s frames).1.frameCount_ =
      (s.frameCount_ + (writeFilesCount s frames).2) % U32 := by
  induction frames generalizing s with
  | nil =>
    show s.frameCount_ = (s.frameCount_ + 0) % U32
    rw [Nat.add_zero, Nat.mod_eq_of_lt h]
  | cons cf rest ih =>
    unfold writeFilesCount
    cases h1 : writeFile s cf.1 cf.2 with
    | error e =>
      have ht := writeFile_throws s cf.1 cf.2 e h1
      simp only
      rw [ih e.2 (by rw [ht]; exact h), ht]
    | ok q =>
      simp only
      by_cases hfd : s.fd_ = none
      · rw [writeFile_closed s cf.1 cf.2 hfd] at h1
        injection h1 with h1
        subst h1
        rw [if_pos hfd, Nat.add_zero]
        exact ih s h
      · have hw := writeFile_returns s q cf.1 cf.2 hfd h1
        have hq : q.frameCount_ < U32 := by
          rw [hw.2.1]
          exact Nat.mod_lt _ (by decide)
        rw [if_neg hfd, ih q hq, hw.2.1]
        unfold add32
        rw [Nat.mod_add_mod]
        congr 1
        omega

/-- C11 (code at the failing input): a new unbuffered writer gets the size limit 7, is opened
on `data` and writes `sampleFrame`, whose payload has 3 bytes.  `checkSize` is asked about
`3 + 4 = 7` bytes, which it accepts, and the record written to `data.1` has `3 + 8 = 11`
bytes: the file is 4 bytes longer than the limit. -/
theorem sizeLimit_failing_input :
    ((sessionLimited sampleOs 0 7 0 "data" [(2, sampleFrame)]).toOption.map fun s =>
        (s.sizeLimit_, s.fd_, s.fileBytes.length, s.pending.length)) =
      some (7, some "data.1", 11, 0) := by
  decide

/-- C12 (the claim as stated fails): a new unbuffered writer with size limit 12 is opened on
`data` and writes `sampleFrame` twice.  The second record does not fit and goes to `data.2`,
which then holds 11 bytes with nothing waiting in the buffer, but `getSize()` is 22. -/
theorem getSize_rotation_counterexample :
    ((sessionLimited sampleOs 0 12 0 "data" [(2, sampleFrame), (2, sampleFrame)]).toOption.map
        fun s => (s.fd_, s.fileBytes.length, s.pending.length, getSize s)) =
      some (some "data.2", 11, 0, 22) := by
  decide

/-- C12 (amended): a new writer gets a size limit (0: none) and a buffer (0: none) and is
opened.  After any sequence of `writeFile` calls that all return, `getSize()` is the number of
bytes of all records written since `open`, in whatever file they are, modulo `2^32`.  Without a
size limit, and when no `size + currBuffer_` of `intWrite` leaves the 32-bit range, this is the
number of bytes written to the open file plus the bytes waiting in the buffer. -/
theorem getSize_total (os : Os) (idx0 limit size : Nat) (file : String)
    (frames : List (Nat × Frame)) (w s0 s : StreamWriter)
    (hbuf : setBufferSize (setMaxSize (new os idx0) limit) size = .ok w)
    (hopen : StreamWriter.open w file = .ok s0)
    (hrun : writeFiles s0 frames = .ok s)
    (hfr : ∀ cf ∈ frames, cf.1 < 256 ∧ cf.2.bytes.length < U32) :
    getSize s = (records frames).length % U32 ∧
      (limit = 0 → noWrapRun s0 frames = true →
        s.fileBytes.length + s.pending.length =
          (os.content file).length + (records frames).length) := by
  have ho := open_state w s0 file hopen
  refine ⟨?_, ?_⟩
  · rw [writeFiles_total frames s0 s ho.1 hfr hrun]
    unfold getSize add32
    rw [ho.2.1, ho.2.2.1]
    simp
  · intro hl hnw
    subst hl
    have h1 := new_setBufferSize os idx0 size w hbuf
    have h2 := open_ok w s0 file h1.1 hopen
    have h3 := writeFiles_stream frames s0 s h2.1 h2.2.1 hfr hnw hrun
    have hlen := congrArg List.length h3.1
    rw [h2.2.2.2.2] at hlen
    unfold stream at hlen
    simp only [List.length_append] at hlen
    rw [hlen]
    unfold Os.content
    rw [h1.2.2]

/-- C12 (witness): the writer with a 16-byte buffer and no size limit after `sampleFrames`:
19 bytes, 15 of them in the file and 4 waiting. -/
theorem getSize_total_witness :
    getSize sampleFinal = (records sampleFrames).length % U32 ∧ getSize sampleFinal = 19 ∧
      sampleFinal.fileBytes.length = 15 ∧ sampleFinal.pending.length = 4 :=
  have h := getSize_total sampleOs 0 0 16 "data" sampleFrames sampleBuffered sampleOpened
    sampleFinal rfl rfl rfl (by decide)
  ⟨h.1, by decide, by decide, by decide⟩

/-- C13 (the claim as stated fails): `sampleCountMax` is an open writer whose frame counter is
`2^32 - 1`.  A `writeFile` call returns, and `getFrameCount()` is then 0: the counter did not
increase by 1. -/
theorem frameCount_wrap_counterexample :
    sampleCountMax.fd_ ≠ none ∧ getFrameCount sampleCountMax = 4294967295 ∧
      ((writeFile sampleCountMax 2 sampleFrame).toOption.map getFrameCount) = some 0 := by
  decide

/-- C13 (amended): `getFrameCount()` is the number, modulo `2^32`, of the `writeFile` calls
made since the last `open` that returned without an exception on a writer whose file was
open: `open` sets the counter to 0, each such call adds 1 to it modulo `2^32` (exactly 1
below `2^32 - 1`), and a call that throws or finds the file closed leaves it unchanged. -/
theorem frameCount_counts (w s0 : StreamWriter) (file : String) (frames : List (Nat × Frame))
    (hopen : StreamWriter.open w file = .ok s0) :
    getFrameCount s0 = 0 ∧
      getFrameCount (writeFilesCount s0 frames).1 = (writeFilesCount s0 frames).2 % U32 ∧
      (∀ (s q : StreamWriter) (c : Nat) (f : Frame), s.fd_ ≠ none →
        writeFile s c f = .ok q →
        getFrameCount q = (getFrameCount s + 1) % U32 ∧
          (getFrameCount s + 1 < U32 → getFrameCount q = getFrameCount s + 1)) ∧
      (∀ (s : StreamWriter) (c : Nat) (f : Frame) (e : Exn × StreamWriter),
        writeFile s c f = .error e → getFrameCount e.2 = getFrameCount s) ∧
      (∀ (s : StreamWriter) (c : Nat) (f : Frame), s.fd_ = none →
        writeFile s c f = .ok s) := by
  have ho := open_state w s0 file hopen
  refine ⟨ho.2.2.2.1, ?_, ?_, ?_, ?_⟩
  · unfold getFrameCount
    rw [writeFilesCount_frameCount frames s0 (by rw [ho.2.2.2.1]; decide), ho.2.2.2.1,
      Nat.zero_add]
  · intro s q c f hfd h
    have hw := (writeFile_returns s q c f hfd h).2.1
    unfold getFrameCount
    refine ⟨hw, ?_⟩
    intro hlt
    rw [hw]
    exact add32_of_lt hlt
  · intro s c f e h
    exact writeFile_throws s c f e h
  · intro s c f hfd
    exact writeFile_closed s c f hfd

/-- C13 (witness): after `open`, a frame too large for the size limit 7 (the call throws) and
two frames that fit, the counter is 2. -/
theorem frameCount_counts_witness :
    getFrameCount sampleLimited = 0 ∧
      (writeFilesCount sampleLimited
        [(2, sampleFrame), (1, sampleFrameLong), (1, sampleFrameEmpty)]).2 = 2 ∧
      getFrameCount (writeFilesCount sampleLimited
        [(2, sampleFrame), (1, sampleFrameLong), (1, sampleFrameEmpty)]).1 = 2 :=
  have h := frameCount_counts (setMaxSize (new sampleOs 0) 7) sampleLimited "data"
    [(2, sampleFrame), (1, sampleFrameLong), (1, sampleFrameEmpty)] rfl
  ⟨h.1, by decide, by decide⟩

end StreamWriter

/-! ## Stream Master: claim C18 -/

namespace Master

theorem subscribers_foldl (secs : List Slave) (m : Master) :
    subscribers (secs.foldl addSlave m) = subscribers m ++ secs := by
  induction secs generalizing m with
  | nil => simp
  | cons s rest ih =>
    rw [List.foldl_cons, ih]
    simp [subscribers, addSlave]

theorem subscribers_wired (p : Slave) (secs : List Slave) :
    subscribers (wired p secs) = p :: secs := by
  unfold wired
  rw [subscribers_foldl]
  rfl

/-- C18: after `setSlave(p)` and `addSlave` for each Slave of `secs`, `sendFrame(frame,
timeout)` makes exactly one delivery of `frame` to the primary Slave `p` and to every
secondary Slave, and it returns true exactly when all these deliveries completed. -/
theorem sendFrame_all (p : Slave) (secs : List Slave) (frame : Frame) (timeout : Nat) :
    (sendFrame (wired p secs) frame timeout).2 =
        (p :: secs).map (fun s =>
          { slave := s.id, frame := frame, completed := s.ready frame timeout }) ∧
      ((sendFrame (wired p secs) frame timeout).1 = true ↔
        ∀ s ∈ p :: secs, s.ready frame timeout = true) := by
  unfold sendFrame
  rw [subscribers_wired]
  refine ⟨rfl, ?_⟩
  simp only [List.all_eq_true]

end Master

/-! ## Packetizer: claims C15, C16 and C17 -/

namespace Controller

theorem setRx_setRx (rx : Nat → RxContext) (c : Nat) (a b : RxContext) :
    setRx (setRx rx c a) c b = setRx rx c b := by
  funext k
  unfold setRx
  by_cases h : k = c
  · rw [if_pos h, if_pos h]
  · rw [if_neg h, if_neg h, if_neg h]

theorem setRx_same (rx : Nat → RxContext) (c : Nat) (a : RxContext) : setRx rx c a c = a := by
  unfold setRx
  rw [if_pos rfl]

theorem window_ge (cfg : PacketizerConfig) : 256 ≤ cfg.window := by
  unfold PacketizerConfig.window
  have h : 2 ^ 8 ≤ 2 ^ cfg.seqBits := Nat.pow_le_pow_right (by decide) cfg.wide
  exact h

theorem receive_mid (cfg : PacketizerConfig) (st : Controller) (c n fl : Nat) (x : List Nat)
    (ha : (st.rx c).awaitTail = false) (h : (st.rx c).expected = n % cfg.window) :
    receive cfg st (segment cfg c (n % cfg.window) false fl x) =
      { st with
        rx := setRx st.rx c
          { acc := { flags := fl, buffers := (st.rx c).acc.buffers ++ [x] },
            expected := (n + 1) % cfg.window, awaitTail := false } } := by
  unfold receive segment accumulate
  simp only [ha, h, ne_eq, not_true_eq_false, or_self, if_false, Bool.false_eq_true,
    Nat.mod_add_mod]

theorem receive_tail (cfg : PacketizerConfig) (st : Controller) (c n fl : Nat) (x : List Nat)
    (ha : (st.rx c).awaitTail = false) (h : (st.rx c).expected = n % cfg.window) :
    receive cfg st (segment cfg c (n % cfg.window) true fl x) =
      { rx := setRx st.rx c idle,
        delivered := st.delivered ++
          [(c, { flags := fl, buffers := (st.rx c).acc.buffers ++ [x] })] } := by
  unfold receive segment accumulate
  simp only [ha, h, ne_eq, not_true_eq_false, or_self, if_false, if_true,
    Bool.false_eq_true]

theorem receiveAll_segmentsFrom (cfg : PacketizerConfig) (c fl : Nat) (cs : List (List Nat))
    (hcs : cs ≠ []) (st : Controller) (n : Nat) (ha : (st.rx c).awaitTail = false)
    (h : (st.rx c).expected = n % cfg.window) :
    receiveAll cfg st (segmentsFrom cfg c fl n cs) =
      { rx := setRx st.rx c idle,
        delivered := st.delivered ++
          [(c, { flags := fl, buffers := (st.rx c).acc.buffers ++ cs })] } := by
  induction cs generalizing st n with
  | nil => exact absurd rfl hcs
  | cons x rest ih =>
    cases rest with
    | nil =>
      show receive cfg st (segment cfg c (n % cfg.window) true fl x) = _
      exact receive_tail cfg st c n fl x ha h
    | cons y rest2 =>
      show receiveAll cfg (receive cfg st (segment cfg c (n % cfg.window) false fl x))
        (segmentsFrom cfg c fl (n + 1) (y :: rest2)) = _
      rw [receive_mid cfg st c n fl x ha h]
      rw [ih (by simp) _ (n + 1) (by simp [setRx_same]) (by simp [setRx_same])]
      simp only [setRx_setRx, setRx_same, List.append_assoc, List.singleton_append]

theorem chunksFuel_flatten (fuel size : Nat) (bytes : List Nat) :
    (chunksFuel fuel size bytes).flatten = bytes := by
  induction fuel generalizing bytes with
  | zero => simp [chunksFuel]
  | succ k ih =>
    unfold chunksFuel
    by_cases h : bytes.length ≤ size
    · rw [if_pos h]
      simp
    · rw [if_neg h, List.flatten_cons, ih, List.take_append_drop]

theorem chunksFuel_ne_nil (fuel size : Nat) (bytes : List Nat) :
    chunksFuel fuel size bytes ≠ [] := by
  cases fuel with
  | zero => simp [chunksFuel]
  | succ k =>
    unfold chunksFuel
    by_cases h : bytes.length ≤ size
    · rw [if_pos h]; simp
    · rw [if_neg h]; simp

theorem receiveAll_transmit (cfg : PacketizerConfig) (c : Nat) (f : Frame) (st : Controller)
    (hidle : st.rx c = idle) :
    receiveAll cfg st (transmit cfg c f) =
      { rx := setRx st.rx c idle,
        delivered := st.delivered ++
          [(c, { flags := f.getFlags, buffers := chunks cfg f })] } := by
  unfold transmit
  rw [receiveAll_segmentsFrom cfg c f.getFlags (chunks cfg f) (chunksFuel_ne_nil _ _ _) st 0
    (by rw [hidle]; rfl) (by rw [hidle]; simp [idle])]
  rw [hidle]
  simp [idle]

theorem getFlags_getFlags (f : Frame) (bs : List (List Nat)) :
    Frame.getFlags { flags := f.getFlags, buffers := bs } = f.getFlags := by
  unfold Frame.getFlags
  exact Nat.mod_mod _ _

/-- C15: for every frame, of any payload size, cutting it into Segments on a channel whose
reassembly context is idle and receiving the Segments in order hands exactly one more frame to
the Application Slave of that channel; the bytes and the flag word of this frame are those of
the original, and the context is idle again. -/
theorem roundtrip (cfg : PacketizerConfig) (c : Nat) (f : Frame) (st : Controller)
    (hidle : st.rx c = idle) :
    ∃ d : Frame,
      (receiveAll cfg st (transmit cfg c f)).delivered = st.delivered ++ [(c, d)] ∧
        d.bytes = f.bytes ∧ d.getPayload = f.getPayload ∧ d.getFlags = f.getFlags ∧
        (receiveAll cfg st (transmit cfg c f)).rx c = idle := by
  rw [receiveAll_transmit cfg c f st hidle]
  have hb : Frame.bytes { flags := f.getFlags, buffers := chunks cfg f } = f.bytes :=
    chunksFuel_flatten _ _ _
  refine ⟨{ flags := f.getFlags, buffers := chunks cfg f }, rfl, hb, ?_,
    getFlags_getFlags f _, setRx_same _ _ _⟩
  unfold Frame.getPayload
  rw [hb]

/-- C15 (witness): `sampleFrame12`, with flag word 1, sent in 6 Segments on channel 2 of a
Controller that received nothing yet. -/
theorem roundtrip_witness :
    (transmit sampleCfg 2 sampleFrame12).length = 6 ∧
      ((receiveAll sampleCfg init (transmit sampleCfg 2 sampleFrame12)).delivered.map
        fun d => (d.1, d.2.getFlags, d.2.bytes)) = [(2, 1, sampleFrame12.bytes)] ∧
      ∃ d : Frame,
        (receiveAll sampleCfg init (transmit sampleCfg 2 sampleFrame12)).delivered =
            init.delivered ++ [(2, d)] ∧
          d.bytes = sampleFrame12.bytes ∧ d.getPayload = sampleFrame12.getPayload ∧
          d.getFlags = sampleFrame12.getFlags ∧
          (receiveAll sampleCfg init (transmit sampleCfg 2 sampleFrame12)).rx 2 = idle :=
  ⟨by decide, by decide, roundtrip sampleCfg 2 sampleFrame12 init rfl⟩

theorem segmentsFrom_length (cfg : PacketizerConfig) (c fl : Nat) (cs : List (List Nat))
    (n : Nat) : (segmentsFrom cfg c fl n cs).length = cs.length := by
  induction cs generalizing n with
  | nil => rfl
  | cons x rest ih =>
    cases rest with
    | nil => rfl
    | cons y rest2 =>
      show (segmentsFrom cfg c fl (n + 1) (y :: rest2)).length + 1 = _
      rw [ih]
      rfl

theorem segmentsFrom_payload (cfg : PacketizerConfig) (c fl : Nat) (cs : List (List Nat))
    (n : Nat) : (segmentsFrom cfg c fl n cs).map (fun s => s.payload) = cs := by
  induction cs generalizing n with
  | nil => rfl
  | cons x rest ih =>
    cases rest with
    | nil => rfl
    | cons y rest2 =>
      show x :: (segmentsFrom cfg c fl (n + 1) (y :: rest2)).map (fun s => s.payload) = _
      rw [ih]

theorem segmentsFrom_channel (cfg : PacketizerConfig) (c fl : Nat) (cs : List (List Nat))
    (n : Nat) : ∀ s ∈ segmentsFrom cfg c fl n cs, s.channel = c ∧
      s.length = s.payload.length ∧ s.flags = fl ∧
      s.check = cfg.crc s.channel s.seq s.tail s.length s.flags s.payload := by
  induction cs generalizing n with
  | nil =>
    intro s hs
    cases hs
  | cons x rest ih =>
    cases rest with
    | nil =>
      intro s hs
      have hs2 : s = segment cfg c (n % cfg.window) true fl x := List.mem_singleton.mp hs
      rw [hs2]
      exact ⟨rfl, rfl, rfl, rfl⟩
    | cons y rest2 =>
      intro s hs
      have hs2 : s = segment cfg c (n % cfg.window) false fl x ∨
          s ∈ segmentsFrom cfg c fl (n + 1) (y :: rest2) := List.mem_cons.mp hs
      rcases hs2 with hs2 | hs2
      · rw [hs2]
        exact ⟨rfl, rfl, rfl, rfl⟩
      · exact ih (n + 1) s hs2

theorem segmentsFrom_seq (cfg : PacketizerConfig) (c fl : Nat) (cs : List (List Nat))
    (n : Nat) :
    (segmentsFrom cfg c fl n cs).map (fun s => s.seq) =
      (List.range' n cs.length).map (fun i => i % cfg.window) := by
  induction cs generalizing n with
  | nil => rfl
  | cons x rest ih =>
    cases rest with
    | nil => rfl
    | cons y rest2 =>
      show n % cfg.window ::
        (segmentsFrom cfg c fl (n + 1) (y :: rest2)).map (fun s => s.seq) = _
      rw [ih]
      rfl

theorem segmentsFrom_tail (cfg : PacketizerConfig) (c fl : Nat) (cs : List (List Nat))
    (n : Nat) :
    (segmentsFrom cfg c fl n cs).map (fun s => s.tail) =
      (List.range' n cs.length).map (fun i => decide (i + 1 = n + cs.length)) := by
  induction cs generalizing n with
  | nil => rfl
  | cons x rest ih =>
    cases rest with
    | nil => simp [segmentsFrom, segment]
    | cons y rest2 =>
      show false :: (segmentsFrom cfg c fl (n + 1) (y :: rest2)).map (fun s => s.tail) = _
      rw [ih]
      have e : n + 1 + (y :: rest2).length = n + (x :: y :: rest2).length := by
        simp only [List.length_cons]
        omega
      rw [e]
      show _ = List.map (fun i => decide (i + 1 = n + (x :: y :: rest2).length))
        (n :: List.range' (n + 1) (y :: rest2).length)
      rw [List.map_cons]
      congr 1
      simp

theorem chunksFuel_bound (fuel size : Nat) (bytes : List Nat)
    (hf : bytes.length ≤ fuel * size + size) :
    ∀ x ∈ chunksFuel fuel size bytes, x.length ≤ size := by
  induction fuel generalizing bytes with
  | zero =>
    intro x hx
    simp only [chunksFuel, List.mem_singleton] at hx
    rw [hx]
    omega
  | succ k ih =>
    intro x hx
    unfold chunksFuel at hx
    by_cases h : bytes.length ≤ size
    · rw [if_pos h] at hx
      rw [List.mem_singleton.mp hx]
      exact h
    · rw [if_neg h] at hx
      rcases List.mem_cons.mp hx with hx | hx
      · rw [hx, List.length_take]
        exact Nat.min_le_left _ _
      · apply ih (bytes.drop size) _ x hx
        rw [List.length_drop]
        have : (k + 1) * size = k * size + size := Nat.succ_mul k size
        omega

theorem chunks_bound (cfg : PacketizerConfig) (f : Frame) :
    ∀ x ∈ chunks cfg f, x.length ≤ cfg.mtu - cfg.headerSize := by
  unfold chunks
  apply chunksFuel_bound
  · have hm := cfg.room
    have h1 : f.bytes.length * 1 ≤ f.bytes.length * (cfg.mtu - cfg.headerSize) :=
      Nat.mul_le_mul_left _ (by omega)
    omega

theorem chunks_500 (cfg : PacketizerConfig) (f : Frame) (h1 : cfg.mtu = 188)
    (h2 : cfg.headerSize = 4) (h3 : f.bytes.length = 500) :
    chunks cfg f =
      [f.bytes.take 184, (f.bytes.drop 184).take 184, (f.bytes.drop 184).drop 184] := by
  unfold chunks
  rw [h1, h2, h3]
  show chunksFuel (499 + 1) 184 f.bytes = _
  unfold chunksFuel
  rw [if_neg (by omega)]
  show f.bytes.take 184 :: chunksFuel (498 + 1) 184 (f.bytes.drop 184) = _
  unfold chunksFuel
  rw [if_neg (by rw [List.length_drop]; omega)]
  show _ :: _ :: chunksFuel (497 + 1) 184 ((f.bytes.drop 184).drop 184) = _
  unfold chunksFuel
  rw [if_pos (by rw [List.length_drop, List.length_drop]; omega)]

/-- C16: for every outgoing frame on channel `c` the transmit path emits at least one Segment;
the payloads are each at most `MTU - headerSize` bytes and together are the payload of the
frame; every Segment carries channel id `c`; the sequence numbers are the consecutive numbers
`0, 1, 2, ...`, wrapping modulo the sequence window as the transmit path of the spec has it,
so they are `0, 1, 2, ...` themselves while there are no more Segments than the window has
numbers; the tail flag is set on the last Segment only.  With MTU 188, a header of 4 bytes and
a 500-byte frame there are exactly 3 Segments, with payloads of 184, 184 and 132 bytes,
sequence numbers 0, 1, 2 and the tail flag on the third only. -/
theorem transmit_segments (cfg : PacketizerConfig) (c : Nat) (f : Frame) :
    transmit cfg c f ≠ [] ∧
      (∀ s ∈ transmit cfg c f,
        s.payload.length ≤ cfg.mtu - cfg.headerSize ∧ s.channel = c) ∧
      ((transmit cfg c f).map (fun s => s.payload)).flatten = f.bytes ∧
      (transmit cfg c f).map (fun s => s.seq) =
        (List.range (transmit cfg c f).length).map (fun i => i % cfg.window) ∧
      ((transmit cfg c f).length ≤ cfg.window →
        (transmit cfg c f).map (fun s => s.seq) = List.range (transmit cfg c f).length) ∧
      (transmit cfg c f).map (fun s => s.tail) =
        (List.range (transmit cfg c f).length).map
          (fun i => decide (i + 1 = (transmit cfg c f).length)) ∧
      (cfg.mtu = 188 → cfg.headerSize = 4 → f.bytes.length = 500 →
        (transmit cfg c f).map (fun s => (s.channel, s.seq, s.tail, s.payload.length)) =
          [(c, 0, false, 184), (c, 1, false, 184), (c, 2, true, 132)]) := by
  have hlen : (transmit cfg c f).length = (chunks cfg f).length :=
    segmentsFrom_length _ _ _ _ _
  have hpay : (transmit cfg c f).map (fun s => s.payload) = chunks cfg f :=
    segmentsFrom_payload _ _ _ _ _
  have hseq : (transmit cfg c f).map (fun s => s.seq) =
      (List.range (transmit cfg c f).length).map (fun i => i % cfg.window) := by
    rw [hlen, List.range_eq_range']
    exact segmentsFrom_seq cfg c f.getFlags (chunks cfg f) 0
  have hw := window_ge cfg
  refine ⟨?_, ?_, ?_, hseq, ?_, ?_, ?_⟩
  · intro h
    have h0 := congrArg List.length h
    rw [hlen] at h0
    exact chunksFuel_ne_nil _ _ _ (List.eq_nil_of_length_eq_zero h0)
  · intro s hs
    refine ⟨?_, (segmentsFrom_channel cfg c f.getFlags _ 0 s hs).1⟩
    apply chunks_bound cfg f
    rw [← hpay]
    exact List.mem_map_of_mem _ hs
  · rw [hpay]
    exact chunksFuel_flatten _ _ _
  · intro hw2
    rw [hseq]
    conv_rhs => rw [← List.map_id (List.range (transmit cfg c f).length)]
    apply List.map_congr_left
    intro i hi
    have hi2 : i < (transmit cfg c f).length := List.mem_range.mp hi
    exact Nat.mod_eq_of_lt (by omega)
  · rw [hlen, List.range_eq_range']
    have h := segmentsFrom_tail cfg c f.getFlags (chunks cfg f) 0
    rw [Nat.zero_add] at h
    exact h
  · intro h1 h2 h4
    unfold transmit
    rw [chunks_500 cfg f h1 h2 h4]
    have e1 : 1 % cfg.window = 1 := Nat.mod_eq_of_lt (by omega)
    have e2 : 2 % cfg.window = 2 := Nat.mod_eq_of_lt (by omega)
    simp only [segmentsFrom, segment, List.map_cons, List.map_nil, Nat.zero_mod, e1, e2,
      List.length_take, List.length_drop, h4]
    rfl

/-- C16 (witness): the concrete scenario, a 500-byte frame on channel 2 with MTU 188 and a
header of 4 bytes; and `sampleFrame12` on channel 2 with 2 payload bytes per Segment. -/
theorem transmit_segments_witness :
    sampleFrame500.bytes.length = 500 ∧
      (transmit sampleCfg188 2 sampleFrame500).map
          (fun s => (s.channel, s.seq, s.tail, s.payload.length)) =
        [(2, 0, false, 184), (2, 1, false, 184), (2, 2, true, 132)] ∧
      (transmit sampleCfg 2 sampleFrame12).map (fun s => (s.seq, s.tail, s.payload)) =
        [(0, false, [10, 11]), (1, false, [12, 13]), (2, false, [14, 15]),
          (3, false, [16, 17]), (4, false, [18, 19]), (5, true, [20, 21])] :=
  have h5 : sampleFrame500.bytes.length = 500 := by
    simp [sampleFrame500, Frame.bytes]
  ⟨h5, (transmit_segments sampleCfg188 2 sampleFrame500).2.2.2.2.2.2 rfl rfl h5, by decide⟩

end Controller

/-! ## Buffer: claims C21, C22 and C23 -/

namespace Buffer

/-- C21 (the claim as stated fails): `sampleNull` has raw size 4, no head room, used length 0
and a `NULL` data pointer.  `getAvailable()` is 4, but a write of 1 byte at offset
`getPayload()` returns 0, not 1. -/
theorem append_null_counterexample :
    sampleNull.headRoom_ ≤ sampleNull.count_ ∧ sampleNull.count_ ≤ sampleNull.rawSize_ ∧
      1 ≤ getAvailable sampleNull ∧
      (write sampleNull (fun _ => 7) (getPayload sampleNull) 1).1 = 0 := by
  decide

/-- C21 (amended): for every Buffer with a non-null data pointer and
`headRoom ≤ count ≤ rawSize`, and every `n ≤ getAvailable()`, the call
`write(p, getPayload(), n)` is not truncated: it returns `n`. -/
theorem append_within_available (b : Buffer) (d p : Mem) (n : Nat) (hd : b.data_ = some d)
    (hraw : b.rawSize_ < U32) (h1 : b.headRoom_ ≤ b.count_) (h2 : b.count_ ≤ b.rawSize_)
    (hn : n ≤ getAvailable b) :
    (write b p (getPayload b) n).1 = n := by
  have hh : b.headRoom_ ≤ b.rawSize_ := Nat.le_trans h1 h2
  have hp : getPayload b = b.count_ - b.headRoom_ := by
    unfold getPayload
    rw [if_neg (by omega), sub32_of_le h1 (by omega)]
  have ha : getAvailable b ≤ b.rawSize_ - b.count_ - b.headRoom_ := by
    unfold getAvailable
    rw [sub32_of_le h2 hraw]
    by_cases h : b.rawSize_ - b.count_ < b.headRoom_
    · simp only [if_pos h]
      omega
    · simp only [if_neg h]
      rw [sub32_of_le (by omega) (by omega)]
  rw [hp]
  by_cases ho : b.count_ - b.headRoom_ ≥ b.rawSize_ - b.headRoom_
  · rw [write_beyond b d p _ n hd hraw hh ho]
    show 0 = n
    omega
  · rw [write_inside b d p _ n hd hraw hh (by omega)]
    show min n _ = n
    exact Nat.min_eq_left (by omega)

/-- C21 (witness): a Buffer of raw size 8 with head room 2 and no payload has 4 bytes
available; a write of 4 bytes at the end of its payload returns 4. -/
theorem append_within_available_witness :
    getAvailable (setSize sampleEmpty 2) = 4 ∧
      (write (setSize sampleEmpty 2) (fun _ => 7) (getPayload (setSize sampleEmpty 2)) 4).1 =
        4 :=
  ⟨by decide,
    append_within_available (setSize sampleEmpty 2) (fun _ => 0) (fun _ => 7) 4 rfl (by decide)
      (by decide) (by decide) (by decide)⟩

/-- C22 (the claim as stated fails): `sampleFilled` has head room 2 and used length 5.  A
write of 0 bytes at offset 0 returns 0, and the used length is 2 afterwards. -/
theorem write_zero_counterexample :
    (write sampleFilled (fun _ => 7) 0 0).1 = 0 ∧ getCount sampleFilled = 5 ∧
      getCount (write sampleFilled (fun _ => 7) 0 0).2 = 2 := by
  decide

/-- C22 (amended): whenever `write` returns 0 on a Buffer with `headRoom ≤ rawSize`, no byte
of the block is changed.  The Buffer is unchanged altogether when the data pointer is `NULL`
or `offset ≥ rawSize - headRoom`; otherwise the write was one of 0 bytes, and it sets the used
length to `headRoom + offset` and leaves the other members as they are. -/
theorem write_zero (b : Buffer) (p : Mem) (offset n : Nat) (hraw : b.rawSize_ < U32)
    (hh : b.headRoom_ ≤ b.rawSize_) (hz : (write b p offset n).1 = 0) :
    (b.data_ = none → (write b p offset n).2 = b) ∧
      ∀ d, b.data_ = some d →
        (offset ≥ b.rawSize_ - b.headRoom_ → (write b p offset n).2 = b) ∧
        (offset < b.rawSize_ - b.headRoom_ →
          n = 0 ∧ (write b p offset n).2.count_ = b.headRoom_ + offset ∧
          (write b p offset n).2.headRoom_ = b.headRoom_ ∧
          (write b p offset n).2.rawSize_ = b.rawSize_ ∧
          (write b p offset n).2.meta_ = b.meta_ ∧
          (write b p offset n).2.error_ = b.error_ ∧
          (write b p offset n).2.flags_ = b.flags_ ∧
          (write b p offset n).2.source_ = b.source_) ∧
        ∃ e, (write b p offset n).2.data_ = some e ∧ ∀ j, e j = d j := by
  refine ⟨fun hd => by rw [write_null b p offset n hd], ?_⟩
  intro d hd
  by_cases ho : offset ≥ b.rawSize_ - b.headRoom_
  · rw [write_beyond b d p offset n hd hraw hh ho]
    exact ⟨fun _ => rfl, fun h => absurd h (by omega), d, hd, fun _ => rfl⟩
  · have ho2 : offset < b.rawSize_ - b.headRoom_ := by omega
    rw [write_inside b d p offset n hd hraw hh ho2] at hz ⊢
    have hz2 : min n (b.rawSize_ - b.headRoom_ - offset) = 0 := hz
    have hn : n = 0 := by
      rcases Nat.le_total n (b.rawSize_ - b.headRoom_ - offset) with h | h
      · rw [Nat.min_eq_left h] at hz2
        exact hz2
      · rw [Nat.min_eq_right h] at hz2
        omega
    refine ⟨fun h => absurd h ho, fun _ => ⟨hn, ?_, rfl, rfl, rfl, rfl, rfl, rfl⟩, _, rfl,
      ?_⟩
    · show offset + b.headRoom_ + min n (b.rawSize_ - b.headRoom_ - offset) = _
      rw [hz2]
      omega
    · intro j
      rw [hz2]
      exact memcpy_outside d p (b.headRoom_ + offset) 0 0 j (by omega)

/-- C22 (witness): a write at offset 9, beyond the 6 bytes that `sampleEmpty` can hold,
returns 0 and leaves the used length 0. -/
theorem write_zero_witness :
    (write sampleEmpty (fun _ => 7) 9 3).1 = 0 ∧
      getCount (write sampleEmpty (fun _ => 7) 9 3).2 = getCount sampleEmpty :=
  have h := (write_zero sampleEmpty (fun _ => 7) 9 3 (by decide) (by decide) (by decide)).2
    (fun _ => 0) rfl
  ⟨by decide, congrArg getCount (h.1 (by decide))⟩

/-- C23 (code at the failing input): on a new Buffer whose `flags_` member holds 0,
`setFlags(5)` followed by `getFlags()` gives 0, and `getError()` gives 5: `setFlags` assigns
`error_`, and `getFlags` reads `flags_`, which no operation assigns.  For every Buffer and
every value, `getFlags()` after `setFlags` is what it was before. -/
theorem setFlags_failing_input :
    getFlags (setFlags (new 0 none 0 4 0) 5) = 0 ∧
      getError (setFlags (new 0 none 0 4 0) 5) = 5 ∧
      ∀ (b : Buffer) (f : Nat),
        getFlags (setFlags b f) = getFlags b ∧ getError (setFlags b f) = f :=
  ⟨rfl, rfl, fun _ _ => ⟨rfl, rfl⟩⟩

end Buffer

/-! ## StreamWriter: claims C24 and C26 -/

namespace StreamWriter

/-- C24: when a size limit `L > 0` is set on an open writer and the check of `checkSize` fires
for the frame (`size > L`, where `size` is the payload length plus 4 as `writeFile` computes
it), `writeFile` throws and the writer, with its files, is exactly as before the call: no byte
is written, no file is closed or opened, and `getSize()`, `getFrameCount()`, `currSize_` and
the buffer keep their values. -/
theorem writeFile_too_large (s : StreamWriter) (c : Nat) (f : Frame) (hfd : s.fd_ ≠ none)
    (hL : 0 < s.sizeLimit_) (hbig : headerA f > s.sizeLimit_) :
    writeFile s c f = .error (Exn.GeneralException, s) ∧
      headerA f = (f.bytes.length + 4) % U32 ∧
      getSize (writeFile s c f).state = getSize s ∧
      getFrameCount (writeFile s c f).state = getFrameCount s ∧
      (writeFile s c f).state.currSize_ = s.currSize_ ∧
      (writeFile s c f).state.pending = s.pending ∧
      (writeFile s c f).state.fd_ = s.fd_ ∧
      (writeFile s c f).state.os.files = s.os.files := by
  have h : writeFile s c f = .error (Exn.GeneralException, s) := by
    unfold writeFile
    rw [if_neg hfd]
    have hc : checkSize s (headerA f) = .error (Exn.GeneralException, s) := by
      unfold checkSize
      rw [if_neg (by omega), if_pos hbig]
    simp only [bind, Except.bind, hc]
  rw [h]
  exact ⟨rfl, headerA_eq f, rfl, rfl, rfl, rfl, rfl, rfl⟩

/-- C24 (witness): the writer `sampleLimited`, with size limit 7, is given a frame with a
payload of 4 bytes. -/
theorem writeFile_too_large_witness :
    writeFile sampleLimited 1 sampleFrameLong = .error (Exn.GeneralException, sampleLimited) ∧
      headerA sampleFrameLong = 8 ∧ sampleLimited.sizeLimit_ = 7 :=
  ⟨(writeFile_too_large sampleLimited 1 sampleFrameLong (by decide) (by decide)
    (by decide)).1, by decide, by decide⟩

theorem flush_inv (s : StreamWriter) (hinv : bufferInv s) :
    bufferInv (flush s).state ∧ (flush s).state.buffer_ = s.buffer_ := by
  unfold flush
  by_cases hc : s.currBuffer_ > 0
  · rw [if_pos hc]
    by_cases hr : (s.os.writeAppend s.fd_ s.pending).1 = true
    · simp only [hr, if_true]
      exact ⟨Nat.zero_le _, rfl⟩
    · simp only [hr, Bool.false_eq_true, if_false]
      exact ⟨hinv, rfl⟩
  · rw [if_neg hc]
    exact ⟨hinv, rfl⟩

theorem intWriteStore_inv (s : StreamWriter) (d : List Nat) (hinv : bufferInv s)
    (hnw : d.length + s.currBuffer_ < U32)
    (hfit : s.currBuffer_ = 0 ∨ d.length + s.currBuffer_ ≤ s.buffSize_) :
    bufferInv (intWriteStore s d).state ∧
      ∀ j, s.buffSize_ ≤ j → (intWriteStore s d).state.buffer_ j = s.buffer_ j := by
  unfold intWriteStore
  by_cases hraw : d.length > s.buffSize_
  · simp only [if_pos hraw]
    by_cases hr : (s.os.writeAppend s.fd_ d).1 = true
    · simp only [hr, if_true]
      exact ⟨hinv, fun _ _ => rfl⟩
    · simp only [hr, Bool.false_eq_true, if_false]
      exact ⟨hinv, fun _ _ => rfl⟩
  · simp only [if_neg hraw]
    by_cases hb : s.buffSize_ > 0 ∧ d.length > 0
    · simp only [if_pos hb]
      have hle : d.length + s.currBuffer_ ≤ s.buffSize_ := by
        rcases hfit with h | h
        · rw [h]; omega
        · exact h
      refine ⟨?_, ?_⟩
      · show add32 s.currBuffer_ d.length ≤ s.buffSize_
        rw [add32_of_lt (by omega)]
        omega
      · intro j hj
        exact memcpy_outside s.buffer_ (listMem d) s.currBuffer_ 0 d.length j
          (Or.inr (by omega))
    · simp only [if_neg hb]
      exact ⟨hinv, fun _ _ => rfl⟩

theorem intWrite_inv (s : StreamWriter) (d : List Nat) (hinv : bufferInv s)
    (hnw : d.length + s.currBuffer_ < U32) :
    bufferInv (intWrite s d).state ∧
      ∀ j, s.buffSize_ ≤ j → (intWrite s d).state.buffer_ j = s.buffer_ j := by
  unfold intWrite
  by_cases hfd : s.fd_ = none
  · simp only [if_pos hfd]
    exact ⟨hinv, fun _ _ => rfl⟩
  · simp only [if_neg hfd]
    rw [add32_of_lt hnw]
    by_cases hc : d.length + s.currBuffer_ > s.buffSize_
    · simp only [if_pos hc]
      have hf := flush_inv s hinv
      have hs := flush_state s
      cases hfl : flush s with
      | error e =>
        rw [hfl] at hf
        exact ⟨hf.1, fun j _ => congrFun hf.2 j⟩
      | ok s1 =>
        rw [hfl] at hf hs
        have hf1 : bufferInv s1 := hf.1
        have hf2 : s1.buffer_ = s.buffer_ := hf.2
        have hs1 : s1.buffSize_ = s.buffSize_ := hs.2.2.2.1
        have h0 : s1.currBuffer_ = 0 := (flush_ok s s1 hfl).2.1
        have hst := intWriteStore_inv s1 d hf1 (by rw [h0]; omega) (Or.inl h0)
        refine ⟨hst.1, ?_⟩
        intro j hj
        show (intWriteStore s1 d).state.buffer_ j = s.buffer_ j
        rw [hst.2 j (by rw [hs1]; exact hj), hf2]
    · simp only [if_neg hc]
      exact intWriteStore_inv s d hinv hnw (Or.inr (by omega))

theorem writePieces_inv (ps : List (List Nat)) (s : StreamWriter) (hinv : bufferInv s)
    (hnw : noWrapWrites s ps = true) :
    bufferInv (writePieces s ps).state ∧
      ∀ j, s.buffSize_ ≤ j → (writePieces s ps).state.buffer_ j = s.buffer_ j := by
  induction ps generalizing s with
  | nil => exact ⟨hinv, fun _ _ => rfl⟩
  | cons d ds ih =>
    unfold writePieces
    unfold noWrapWrites at hnw
    simp only [Bool.and_eq_true, decide_eq_true_eq] at hnw
    have hw := intWrite_inv s d hinv hnw.1
    have hs := intWrite_state s d
    cases h1 : intWrite s d with
    | error e =>
      rw [h1] at hw
      exact hw
    | ok s1 =>
      rw [h1] at hw hs
      have hw1 : bufferInv s1 := hw.1
      have hw2 : ∀ j, s.buffSize_ ≤ j → s1.buffer_ j = s.buffer_ j := hw.2
      have hs1 : s1.buffSize_ = s.buffSize_ := hs.2.2.2.1
      have hnw2 := hnw.2
      rw [h1] at hnw2
      have hr := ih s1 hw1 hnw2
      refine ⟨hr.1, ?_⟩
      intro j hj
      show (writePieces s1 ds).state.buffer_ j = s.buffer_ j
      rw [hr.2 j (by rw [hs1]; exact hj), hw2 j hj]

theorem checkSize_inv (s : StreamWriter) (size : Nat) (hinv : bufferInv s) :
    bufferInv (checkSize s size).state ∧ (checkSize s size).state.buffer_ = s.buffer_ := by
  unfold checkSize
  by_cases h0 : s.sizeLimit_ = 0
  · rw [if_pos h0]
    exact ⟨hinv, rfl⟩
  · rw [if_neg h0]
    by_cases h1 : size > s.sizeLimit_
    · rw [if_pos h1]
      exact ⟨hinv, rfl⟩
    · rw [if_neg h1]
      by_cases h2 : add32 (add32 size s.currBuffer_) s.currSize_ > s.sizeLimit_
      · rw [if_pos h2]
        have hf := flush_inv s hinv
        cases hfl : flush s with
        | error e =>
          rw [hfl] at hf
          exact hf
        | ok s1 =>
          rw [hfl] at hf
          simp only [bind, Except.bind]
          by_cases hr : s1.os.next.1 = true
          · simp only [Os.openAppend, hr, if_true, pure, Except.pure]
            exact hf
          · simp only [Os.openAppend, hr, Bool.false_eq_true, if_false, throw, throwThe,
              MonadExceptOf.throw]
            exact hf
      · rw [if_neg h2]
        exact ⟨hinv, rfl⟩

theorem writePieces_step (s : StreamWriter) (d : List Nat) (ds : List (List Nat)) :
    writePieces s (d :: ds) =
      match intWrite s d with
      | .ok s1 => writePieces s1 ds
      | .error e => .error e := by
  cases h : intWrite s d with
  | error e => simp only [writePieces, bind, Except.bind, h]
  | ok s1 => simp only [writePieces, bind, Except.bind, h]

theorem writeFile_as_pieces (s q0 : StreamWriter) (c : Nat) (f : Frame)
    (hfd : s.fd_ ≠ none) (h0 : checkSize s (headerA f) = .ok q0) :
    writeFile s c f =
      match writePieces q0 (writeFileCalls c f) with
      | .ok q3 => .ok { q3 with frameCount_ := add32 q3.frameCount_ 1 }
      | .error e => .error e := by
  unfold writeFile writeFileCalls
  rw [if_neg hfd, writePieces_step]
  simp only [bind, Except.bind, h0]
  cases h1 : intWrite q0 (le32 (headerA f)) with
  | error e => rfl
  | ok q1 =>
    simp only []
    rw [writePieces_step]
    cases h2 : intWrite q1 (le32 (headerB c f)) with
    | error e => rfl
    | ok q2 =>
      simp only []
      cases h3 : writePieces q2 (Frame.readPieces f.buffers (sub32 (headerA f) 4)) with
      | error e => rfl
      | ok q3 => rfl

theorem writeFile_inv (s : StreamWriter) (c : Nat) (f : Frame) (hinv : bufferInv s)
    (hnw : noWrapFile s c f = true) :
    bufferInv (writeFile s c f).state ∧
      ∀ j, s.buffSize_ ≤ j → (writeFile s c f).state.buffer_ j = s.buffer_ j := by
  by_cases hfd : s.fd_ = none
  · rw [writeFile_closed s c f hfd]
    exact ⟨hinv, fun _ _ => rfl⟩
  · unfold noWrapFile at hnw
    have hc := checkSize_inv s (headerA f) hinv
    have hcs := checkSize_state s (headerA f)
    cases h0 : checkSize s (headerA f) with
    | error e =>
      have hw : writeFile s c f = .error e := by
        unfold writeFile
        rw [if_neg hfd]
        simp only [bind, Except.bind, h0]
      rw [h0] at hc
      rw [hw]
      exact ⟨hc.1, fun j _ => congrFun hc.2 j⟩
    | ok q0 =>
      rw [h0] at hc hcs hnw
      have hc1 : bufferInv q0 := hc.1
      have hc2 : q0.buffer_ = s.buffer_ := hc.2
      have hcs1 : q0.buffSize_ = s.buffSize_ := hcs.2.2.1
      have hp := writePieces_inv (writeFileCalls c f) q0 hc1 hnw
      rw [writeFile_as_pieces s q0 c f hfd h0]
      cases h3 : writePieces q0 (writeFileCalls c f) with
      | error e =>
        rw [h3] at hp
        refine ⟨hp.1, ?_⟩
        intro j hj
        show e.2.buffer_ j = s.buffer_ j
        have := hp.2 j (by rw [hcs1]; exact hj)
        rw [← hc2]
        exact this
      | ok q3 =>
        rw [h3] at hp
        refine ⟨hp.1, ?_⟩
        intro j hj
        show q3.buffer_ j = s.buffer_ j
        have := hp.2 j (by rw [hcs1]; exact hj)
        rw [← hc2]
        exact this

theorem open_inv (s : StreamWriter) (file : String) (hinv : bufferInv s) :
    bufferInv (StreamWriter.open s file).state := by
  unfold StreamWriter.open
  dsimp only
  generalize (if s.sizeLimit_ > 0 then file ++ ".1" else file) = name
  by_cases hr : s.os.next.1 = true
  · simp [Os.openAppend, hr, Res.state, bufferInv]
  · simp only [Os.openAppend, hr, Bool.false_eq_true, if_false]
    exact hinv

theorem close_inv (s : StreamWriter) (hinv : bufferInv s) : bufferInv (close s).state := by
  unfold close
  have hf := flush_inv s hinv
  cases hfl : flush s with
  | error e =>
    rw [hfl] at hf
    exact hf.1
  | ok s1 =>
    rw [hfl] at hf
    exact hf.1

theorem setBufferSize_inv (s : StreamWriter) (size : Nat) (hinv : bufferInv s) :
    bufferInv (setBufferSize s size).state := by
  unfold setBufferSize
  by_cases hs : size = s.buffSize_
  · rw [if_pos hs]
    exact hinv
  · rw [if_neg hs]
    have hf := flush_inv s hinv
    cases hfl : flush s with
    | error e =>
      rw [hfl] at hf
      exact hf.1
    | ok s1 =>
      have h0 : s1.currBuffer_ = 0 := (flush_ok s s1 hfl).2.1
      simp only [bind, Except.bind]
      by_cases hz : size = 0
      · simp [hz, pure, Except.pure, Res.state, bufferInv, h0]
      · by_cases hr : s1.os.next.1 = true
        · simp [hz, Os.malloc, hr, pure, Except.pure, Res.state, bufferInv, h0]
        · simp [hz, Os.malloc, hr, throw, throwThe, MonadExceptOf.throw, Res.state,
            bufferInv, h0]

/-- C26: `currBuffer_ ≤ buffSize_` holds for a new writer and, when it holds before, it holds
after every `open`, `setBufferSize`, `setMaxSize`, `flush`, `close`, `intWrite` and
`writeFile`, whether the call returns or throws, provided no `size + currBuffer_` computed by
`intWrite` leaves the 32-bit range.  Under the same proviso `intWrite` and `writeFile` change
no byte beyond the `buffSize_` bytes of the buffer: every `memcpy` into the buffer stays
within the block allocated. -/
theorem buffer_never_overruns (s : StreamWriter) (hinv : bufferInv s) :
    (∀ (os : Os) (idx0 : Nat), bufferInv (new os idx0)) ∧
      (∀ file, bufferInv (StreamWriter.open s file).state) ∧
      (∀ size, bufferInv (setBufferSize s size).state) ∧
      (∀ size, bufferInv (setMaxSize s size)) ∧
      bufferInv (flush s).state ∧
      bufferInv (close s).state ∧
      (∀ data : List Nat, data.length + s.currBuffer_ < U32 →
        bufferInv (intWrite s data).state ∧
          ∀ j, s.buffSize_ ≤ j → (intWrite s data).state.buffer_ j = s.buffer_ j) ∧
      (∀ (c : Nat) (f : Frame), noWrapFile s c f = true →
        bufferInv (writeFile s c f).state ∧
          ∀ j, s.buffSize_ ≤ j → (writeFile s c f).state.buffer_ j = s.buffer_ j) :=
  ⟨fun _ _ => Nat.le_refl 0, fun file => open_inv s file hinv,
    fun size => setBufferSize_inv s size hinv, fun _ => hinv, (flush_inv s hinv).1,
    close_inv s hinv, fun data hnw => intWrite_inv s data hinv hnw,
    fun c f hnw => writeFile_inv s c f hinv hnw⟩

/-- C26 (witness): the writer `sampleOpened`, with a 16-byte buffer, writes `sampleFrame`;
11 bytes are waiting in the buffer afterwards. -/
theorem buffer_never_overruns_witness :
    bufferInv sampleOpened ∧ bufferInv (writeFile sampleOpened 2 sampleFrame).state ∧
      (writeFile sampleOpened 2 sampleFrame).state.currBuffer_ = 11 ∧
      ∀ j, sampleOpened.buffSize_ ≤ j →
        (writeFile sampleOpened 2 sampleFrame).state.buffer_ j = sampleOpened.buffer_ j :=
  have h0 : bufferInv sampleOpened := by decide
  have h := (buffer_never_overruns sampleOpened h0).2.2.2.2.2.2.2 2 sampleFrame rfl
  ⟨h0, h.1, by decide, h.2⟩

end StreamWriter

/-! ## StreamWriter: claim C25 -/

namespace Os

theorem openAppend_content (os : Os) (name n : String) :
    (os.openAppend name).2.content n = os.content n := by
  unfold Os.openAppend
  by_cases hr : os.next.1 = true
  · simp only [hr, if_true, Os.content]
    by_cases hn : n = name
    · simp only [hn, if_true, Option.getD_some, Os.content]
    · simp only [hn, if_false]
  · simp only [hr, Bool.false_eq_true, if_false, Os.content, StreamWriter.next_files]

theorem writeAppend_other (os : Os) (fd : Option String) (d : List Nat) (n : String)
    (h : some n ≠ fd) : (os.writeAppend fd d).2.content n = os.content n := by
  unfold Os.writeAppend
  cases fd with
  | none => simp only [Os.content, StreamWriter.next_files]
  | some name =>
    have hn : n ≠ name := fun e => h (by rw [e])
    by_cases hr : os.next.1 = true
    · simp only [hr, if_true, Os.content, hn, if_false]
    · simp only [hr, Bool.false_eq_true, if_false, Os.content, StreamWriter.next_files]

end Os

namespace StreamWriter

theorem flush_other (s : StreamWriter) (n : String) (h : some n ≠ s.fd_) :
    (flush s).state.os.content n = s.os.content n := by
  unfold flush
  by_cases hc : s.currBuffer_ > 0
  · rw [if_pos hc]
    by_cases hr : (s.os.writeAppend s.fd_ s.pending).1 = true
    · simp only [hr, if_true]
      exact Os.writeAppend_other s.os s.fd_ s.pending n h
    · simp only [hr, Bool.false_eq_true, if_false]
      exact Os.writeAppend_other s.os s.fd_ s.pending n h
  · rw [if_neg hc]
    rfl

theorem intWriteStore_other (s : StreamWriter) (d : List Nat) (n : String)
    (h : some n ≠ s.fd_) : (intWriteStore s d).state.os.content n = s.os.content n := by
  unfold intWriteStore
  by_cases hraw : d.length > s.buffSize_
  · simp only [if_pos hraw]
    by_cases hr : (s.os.writeAppend s.fd_ d).1 = true
    · simp only [hr, if_true]
      exact Os.writeAppend_other s.os s.fd_ d n h
    · simp only [hr, Bool.false_eq_true, if_false]
      exact Os.writeAppend_other s.os s.fd_ d n h
  · simp only [if_neg hraw]
    by_cases hb : s.buffSize_ > 0 ∧ d.length > 0
    · simp only [if_pos hb]
      rfl
    · simp only [if_neg hb]
      rfl

theorem intWrite_other (s : StreamWriter) (d : List Nat) (n : String) (h : some n ≠ s.fd_) :
    (intWrite s d).state.os.content n = s.os.content n := by
  unfold intWrite
  by_cases hfd : s.fd_ = none
  · simp only [if_pos hfd]
    rfl
  · simp only [if_neg hfd]
    by_cases hfl : add32 d.length s.currBuffer_ > s.buffSize_
    · simp only [if_pos hfl]
      have hf := flush_other s n h
      have hs := flush_state s
      cases hfl2 : flush s with
      | error e =>
        rw [hfl2] at hf
        exact hf
      | ok s1 =>
        rw [hfl2] at hf hs
        have hs1 : s1.fd_ = s.fd_ := hs.1
        have hf1 : s1.os.content n = s.os.content n := hf
        show (intWriteStore s1 d).state.os.content n = s.os.content n
        rw [intWriteStore_other s1 d n (by rw [hs1]; exact h), hf1]
    · simp only [if_neg hfl]
      exact intWriteStore_other s d n h

theorem writePieces_other (ps : List (List Nat)) (s : StreamWriter) (n : String)
    (h : some n ≠ s.fd_) : (writePieces s ps).state.os.content n = s.os.content n := by
  induction ps generalizing s with
  | nil => rfl
  | cons d ds ih =>
    rw [writePieces_step]
    have hw := intWrite_other s d n h
    have hs := intWrite_state s d
    cases h1 : intWrite s d with
    | error e =>
      rw [h1] at hw
      exact hw
    | ok s1 =>
      rw [h1] at hw hs
      have hs1 : s1.fd_ = s.fd_ := hs.1
      have hw1 : s1.os.content n = s.os.content n := hw
      show (writePieces s1 ds).state.os.content n = s.os.content n
      rw [ih s1 (by rw [hs1]; exact h), hw1]

theorem writeFile_pieces (s q : StreamWriter) (c : Nat) (f : Frame) (hfd : s.fd_ ≠ none)
    (h : writeFile s c f = .ok q) :
    ∃ q0 q3, checkSize s (headerA f) = .ok q0 ∧
      writePieces q0 (writeFileCalls c f) = .ok q3 ∧
      q = { q3 with frameCount_ := add32 q3.frameCount_ 1 } := by
  obtain ⟨q0, _, _, _, h0, _⟩ := writeFile_steps s q c f hfd h
  rw [writeFile_as_pieces s q0 c f hfd h0] at h
  cases h3 : writePieces q0 (writeFileCalls c f) with
  | error e =>
    rw [h3] at h
    cases h
  | ok q3 =>
    rw [h3] at h
    exact ⟨q0, q3, h0, h3, (Except.ok.inj h).symm⟩

/-- A `checkSize` that returns either leaves the writer as it is, or flushes the buffer into
the open file, increments `fdIdx_` and opens the file named after the new index. -/
theorem checkSize_cases (s q0 : StreamWriter) (size : Nat) (h : checkSize s size = .ok q0) :
    q0 = s ∨
      ∃ s1, flush s = .ok s1 ∧ q0.fdIdx_ = add32 s.fdIdx_ 1 ∧
        q0.fd_ = some (s.baseName_ ++ "." ++ toString (add32 s.fdIdx_ 1)) ∧
        q0.currBuffer_ = 0 ∧ q0.currSize_ = 0 ∧ q0.baseName_ = s.baseName_ ∧
        ∀ n, q0.os.content n = s1.os.content n := by
  unfold checkSize at h
  by_cases hL : s.sizeLimit_ = 0
  · rw [if_pos hL] at h
    exact Or.inl (Except.ok.inj h).symm
  · rw [if_neg hL] at h
    by_cases hbig : size > s.sizeLimit_
    · rw [if_pos hbig] at h
      cases h
    · rw [if_neg hbig] at h
      by_cases hrot : add32 (add32 size s.currBuffer_) s.currSize_ > s.sizeLimit_
      · rw [if_pos hrot] at h
        right
        have hs := flush_state s
        have hk := flush_ok s
        cases hfl : flush s with
        | error e =>
          rw [hfl] at h
          cases h
        | ok s1 =>
          rw [hfl] at h hs
          have hb : s1.baseName_ = s.baseName_ := hs.2.2.2.2.1
          have hi : s1.fdIdx_ = s.fdIdx_ := hs.2.2.2.2.2
          have hcb : s1.currBuffer_ = 0 := (hk s1 hfl).2.1
          simp only [bind, Except.bind] at h
          refine ⟨s1, rfl, ?_⟩
          by_cases hr : s1.os.next.1 = true
          · simp only [Os.openAppend, hr, if_true, pure, Except.pure] at h
            have hq := (Except.ok.inj h).symm
            rw [hq]
            refine ⟨by rw [← hi], by rw [← hi, ← hb], hcb, rfl, hb, ?_⟩
            intro n
            have ho := Os.openAppend_content s1.os
              (s1.baseName_ ++ "." ++ toString (add32 s1.fdIdx_ 1)) n
            simp only [Os.openAppend, hr, if_true] at ho
            exact ho
          · simp only [Os.openAppend, hr, Bool.false_eq_true, if_false, throw, throwThe,
              MonadExceptOf.throw] at h
            cases h
      · rw [if_neg hrot] at h
        exact Or.inl (Except.ok.inj h).symm

end StreamWriter

namespace StreamWriter

/-- C25: with a size limit set, rotation happens only between records.  `open` on a writer
with a size limit opens `baseName.1` and sets the index to 1.  A `writeFile` that returns on an
open writer first runs `checkSize`, which either leaves the writer as it is or rotates: it
flushes the waiting bytes into the file open so far, which then holds everything written
before this record, raises the index by exactly 1 (the index being below `2^32 - 1`) and opens
`baseName.index`.  From then on the descriptor and the index stay as they are until `writeFile`
returns, no other file is changed, and (no `size + currBuffer_` of `intWrite` leaving the
32-bit range) the two header words and all payload bytes of the record are appended to the
bytes of this one file and its waiting bytes. -/
theorem rotation_between_records (s q : StreamWriter) (c : Nat) (f : Frame)
    (hfd : s.fd_ ≠ none) (hc : c < 256) (hlen : f.bytes.length < U32)
    (hidx : s.fdIdx_ + 1 < U32) (h : writeFile s c f = .ok q) :
    (∀ (w s0 : StreamWriter) (file : String), 0 < w.sizeLimit_ →
        StreamWriter.open w file = .ok s0 →
        s0.fd_ = some (file ++ ".1") ∧ s0.fdIdx_ = 1 ∧ s0.baseName_ = file) ∧
      ∃ q0, checkSize s (headerA f) = .ok q0 ∧ q0.fd_ ≠ none ∧
        q.fd_ = q0.fd_ ∧ q.fdIdx_ = q0.fdIdx_ ∧ q.baseName_ = s.baseName_ ∧
        (∀ n, some n ≠ q0.fd_ → q.os.content n = q0.os.content n) ∧
        (noWrapWrites q0 (writeFileCalls c f) = true → q.stream = q0.stream ++ record c f) ∧
        (q0 = s ∨
          (q0.fdIdx_ = s.fdIdx_ + 1 ∧
            q0.fd_ = some (s.baseName_ ++ "." ++ toString (s.fdIdx_ + 1)) ∧
            q0.pending = [] ∧
            ∀ old, s.fd_ = some old → q0.os.content old = s.stream)) := by
  constructor
  · intro w s0 file hL ho
    unfold StreamWriter.open at ho
    simp only [if_pos hL] at ho
    by_cases hr : w.os.next.1 = true
    · simp only [Os.openAppend, hr, if_true] at ho
      rw [← Except.ok.inj ho]
      exact ⟨rfl, rfl, rfl⟩
    · simp only [Os.openAppend, hr, Bool.false_eq_true, if_false] at ho
      cases ho
  · obtain ⟨q0, q3, h0, h3, hq⟩ := writeFile_pieces s q c f hfd h
    have hcs := checkSize_ok s q0 (headerA f) hfd h0
    have hst := writePieces_state (writeFileCalls c f) q0
    have hoth := writePieces_other (writeFileCalls c f) q0
    have hb := checkSize_state s (headerA f)
    rw [h3] at hst hoth
    rw [h0] at hb
    have hfd3 : q3.fd_ = q0.fd_ := hst.1
    have hidx3 : q3.fdIdx_ = q0.fdIdx_ := hst.2.2.2.2.2
    have hbn3 : q3.baseName_ = q0.baseName_ := hst.2.2.2.2.1
    have hbn0 : q0.baseName_ = s.baseName_ := hb.2.2.2
    subst hq
    refine ⟨q0, h0, hcs.1, hfd3, hidx3, hbn3.trans hbn0, fun n hn => hoth n hn, ?_, ?_⟩
    · intro hnw
      have hw := writePieces_ok (writeFileCalls c f) q0 q3 hcs.1 hnw h3
      rw [writeFileCalls_flatten c f hc hlen] at hw
      exact hw.1
    · rcases checkSize_cases s q0 (headerA f) h0 with
        hsame | ⟨s1, hfl, hi, hn, hcb, _, _, hcont⟩
      · exact Or.inl hsame
      · right
        rw [add32_of_lt hidx] at hi hn
        refine ⟨hi, hn, pending_zero q0 hcb, ?_⟩
        intro old hold
        have hk := flush_ok s s1 hfl
        have hp : s1.pending = [] := pending_zero s1 hk.2.1
        have hfb : s1.fileBytes = s.stream := by
          have := hk.1
          unfold stream at this
          rw [hp, List.append_nil] at this
          exact this
        rw [hcont old, ← hfb]
        unfold fileBytes
        rw [hk.2.2.1, hold]

/-- C25 (witness): a writer with size limit 12 and a 16-byte buffer holds the record of
`sampleFrame` in its buffer, `data.1` being open.  The next `writeFile` flushes the record into
`data.1`, opens `data.2` with index 2, and the second record waits in the buffer. -/
theorem rotation_between_records_witness :
    sampleRotate.fd_ = some "data.1" ∧ sampleRotate.fdIdx_ = 1 ∧
      sampleRotated.fd_ = some "data.2" ∧ sampleRotated.fdIdx_ = 2 ∧
      sampleRotated.os.content "data.1" = record 2 sampleFrame ∧
      sampleRotated.stream = record 2 sampleFrame ∧
      ∃ q0, checkSize sampleRotate (headerA sampleFrame) = .ok q0 ∧ q0.fd_ ≠ none ∧
        sampleRotated.fd_ = q0.fd_ ∧ sampleRotated.fdIdx_ = q0.fdIdx_ ∧
        sampleRotated.baseName_ = sampleRotate.baseName_ ∧
        (∀ n, some n ≠ q0.fd_ → sampleRotated.os.content n = q0.os.content n) ∧
        (noWrapWrites q0 (writeFileCalls 2 sampleFrame) = true →
          sampleRotated.stream = q0.stream ++ record 2 sampleFrame) ∧
        (q0 = sampleRotate ∨
          (q0.fdIdx_ = sampleRotate.fdIdx_ + 1 ∧
            q0.fd_ =
              some (sampleRotate.baseName_ ++ "." ++ toString (sampleRotate.fdIdx_ + 1)) ∧
            q0.pending = [] ∧
            ∀ old, sampleRotate.fd_ = some old → q0.os.content old = sampleRotate.stream)) :=
  ⟨by decide, by decide, by decide, by decide, by decide, by decide,
    (rotation_between_records sampleRotate sampleRotated 2 sampleFrame (by decide) (by decide)
      (by decide) (by decide) rfl).2⟩

end StreamWriter

end Rogue
